import Mathlib

set_option autoImplicit false

/-!
Verification of the event-multiplexing engine in `src/stream.rs`.

The embedding is a direct translation of the Rust source:

* A notification stream is modelled as the list of its currently buffered
  poll results (`List (Option α)`); polling past the end of the buffer is
  `Pending`, so `loop_until_pending` returns the whole buffer and leaves the
  stream empty.  New data arriving from the bus is an environment step that
  appends to a buffer.
* A one-shot conversion future (`Conv`) answers `Pending` to its next `fuel`
  polls and then `Ready result` (the `Option<LoopEvent>` of the source); each
  poll of a pending conversion decrements the fuel.  `cid` is a ghost identity
  used only to state which conversion a waker was minted for.
* A panic (`Vec` indexing, `Option::unwrap`) is modelled by returning `none`
  from the function that panics; `Option`-valued functions propagate it.
* `WakerData.minted` and `LoopWaker.for_conv` are ghost instrumentation: they
  record every waker handed out by `LoopWaker::new_waker` and, for a
  `FutureEvent` waker, the identity of the conversion it was minted for.  The
  engine itself never reads them; dispatch consumes only the `WakeFrom` tag,
  exactly as `ready_tokens : Vec<WakeFrom>` does in the source.  They exist so
  that environment wake steps can be restricted to wakers that were actually
  distributed.
* The types and functions of `handle.rs` (`Event`, `LoopEvent`,
  `process_by_loop`, `handle_new_item`, `handle_remove_item`) are not under
  `src/`; their definitions below are modelled from the spec and marked as
  such.  The `Connection` field of `LoopInner` is used only inside
  `handle_new_item` in the source and is omitted.
-/

/-- `Token` identifies an item; it wraps the item's bus-address string
(`destination` in the source). -/
abbrev Token := String

/-- The wake source of an item (`ItemWakeFrom` in the source). -/
inductive ItemWakeFrom
| disconnect
| propertyChange
| layoutUpdate
deriving DecidableEq, Repr

/-- The wake source of the loop (`WakeFrom` in the source). -/
inductive WakeFrom
| newItem
| futureEvent (index : Nat)
| itemUpdate (token : Token) (item_wake_from : ItemWakeFrom)
deriving DecidableEq, Repr

/-- Modelled from the spec: the domain-event type lives in `handle.rs`, which
is not under `src/`.  Per §6 the engine treats events opaquely; we provide the
shapes the spec names (item added / item removed) plus an opaque payload for
converted property/layout notifications. -/
inductive Event
| itemAdded (token : Token)
| itemRemoved (token : Token)
| payload (n : Nat)
deriving DecidableEq, Repr

/-- Modelled from the spec: `LoopEvent` lives in `handle.rs`, which is not
under `src/`.  Per §6 a processed value may be emitted as-is and may expand
into zero or more domain events, so it carries a list of domain events. -/
structure LoopEvent where
  events : List Event
deriving DecidableEq, Repr

/-- A one-shot asynchronous conversion
(`Pin<Box<dyn Future<Output = Option<LoopEvent>>>>` in the source): it answers
`Pending` to its next `fuel` polls and then `Ready result`.  `cid` is a ghost
identity used only in statements; the engine never reads it. -/
structure Conv where
  cid : Nat
  fuel : Nat
  result : Option LoopEvent
deriving DecidableEq, Repr

/-- A wake handle (`LoopWaker` in the source): bound to exactly one tag.
`for_conv` is ghost: for a `futureEvent` waker, the identity of the conversion
it was minted for. -/
structure LoopWaker where
  wake_from : WakeFrom
  for_conv : Option Nat
deriving DecidableEq, Repr

/-- The shared wake state (`WakerData` in the source): the pending tag list
plus the outer waker (modelled as the `root_notified` flag).  `minted` is
ghost: every waker `LoopWaker::new_waker` ever handed out. -/
structure WakerData where
  ready_tokens : List LoopWaker
  root_notified : Bool
  minted : List LoopWaker
deriving DecidableEq, Repr

/-- Ghost record of `LoopWaker::new_waker`: the engine distributed waker `w`. -/
def WakerData.mint (wd : WakerData) (w : LoopWaker) : WakerData :=
  { wd with minted := wd.minted ++ [w] }

/-- `LoopWaker::wake_by_ref`: append the invoking handle's tag to the pending
list and wake the outer consumer. -/
def WakerData.wake_by_ref (wd : WakerData) (w : LoopWaker) : WakerData :=
  { wd with ready_tokens := wd.ready_tokens ++ [w], root_notified := true }

/-- `loop_until_pending`: poll the stream until it reports `Pending`,
collecting every produced value.  On the buffered-list model this returns the
entire buffer and leaves the stream with nothing buffered. -/
def loop_until_pending {α : Type} (st : List (Option α)) :
    List (Option α) × List (Option α) :=
  (st, [])

/-- Per-item bundle (`Item` in the source).  The capability references are
modelled by their presence; the property-change and layout-change buffers
directly hold the collaborator-supplied conversion each drained notification
would be turned into (`to_update_item_event` / `to_layout_update_event` are
external collaborators per §6, so their output is environment-chosen). -/
structure Item where
  dbus_menu_proxy : Option Unit
  properties_proxy : Unit
  disconnect_stream : List (Option Unit)
  property_change_stream : List (Option Conv)
  layout_updated_stream : Option (List (Option Conv))
deriving DecidableEq, Repr

/-- `Item::poll_disconnect`: mint the `ItemSource(token, Disconnect)` waker and
drain the disconnect stream until pending, flattening away end-of-stream. -/
def Item.poll_disconnect (it : Item) (token : Token) (wd : WakerData) :
    List Unit × Item × WakerData :=
  let wd := wd.mint ⟨WakeFrom.itemUpdate token ItemWakeFrom.disconnect, none⟩
  let d := loop_until_pending it.disconnect_stream
  (d.1.filterMap id, { it with disconnect_stream := d.2 }, wd)

/-- The conversion-slot table (`FutureMap` in the source). -/
structure FutureMap where
  map : List (Option Conv)
deriving DecidableEq, Repr

/-- `Iterator::position(|f| f.is_none())` over the slot table. -/
def firstNoneIdx : List (Option Conv) → Option Nat
| [] => none
| none :: _ => some 0
| some _ :: rest => (firstNoneIdx rest).map (· + 1)

/-- `FutureMap::preserve_space`: index of the first empty slot, else append a
fresh empty slot and return its index. -/
def FutureMap.preserve_space (fm : FutureMap) : Nat × FutureMap :=
  match firstNoneIdx fm.map with
  | some i => (i, fm)
  | none => (fm.map.length, ⟨fm.map ++ [none]⟩)

/-- One readiness check of a conversion. -/
def Conv.poll (c : Conv) : Sum (Option LoopEvent) Conv :=
  if c.fuel = 0 then Sum.inl c.result else Sum.inr { c with fuel := c.fuel - 1 }

/-- `FutureMap::get`: `&mut self.map[index]`; `none` models the
index-out-of-bounds panic. -/
def FutureMap.get (fm : FutureMap) (index : Nat) : Option (Option Conv) :=
  fm.map.get? index

/-- Store a value into a slot. -/
def FutureMap.set (fm : FutureMap) (index : Nat) (v : Option Conv) : FutureMap :=
  ⟨fm.map.set index v⟩

/-- `FutureMap::try_put`: allocate a slot, mint the `Conversion(slot_index)`
waker, poll the conversion once; if it is immediately ready return its result
(the slot stays empty), otherwise store the suspended conversion in the slot
and return nothing. -/
def FutureMap.try_put (fm : FutureMap) (fut : Conv) (wd : WakerData) :
    Option LoopEvent × FutureMap × WakerData :=
  let p := fm.preserve_space
  let wd := wd.mint ⟨WakeFrom.futureEvent p.1, some fut.cid⟩
  match fut.poll with
  | Sum.inl e => (e, p.2, wd)
  | Sum.inr fut2 => (none, p.2.set p.1 (some fut2), wd)

/-- One step of the `filter_map(|m| future_map.try_put(..))` drain in
`Item::poll_property_change`. -/
def propStep (acc : List LoopEvent × FutureMap × WakerData) (c : Conv) :
    List LoopEvent × FutureMap × WakerData :=
  let r := acc.2.1.try_put c acc.2.2
  (acc.1 ++ r.1.toList, r.2.1, r.2.2)

/-- `Item::poll_property_change`: mint the `ItemSource(token, PropertyChange)`
waker, drain the property stream until pending, and enqueue each drained
notification's conversion, collecting the immediately-ready results. -/
def Item.poll_property_change (it : Item) (token : Token) (wd : WakerData)
    (fm : FutureMap) : List LoopEvent × Item × FutureMap × WakerData :=
  let wd := wd.mint ⟨WakeFrom.itemUpdate token ItemWakeFrom.propertyChange, none⟩
  let d := loop_until_pending it.property_change_stream
  let r := (d.1.filterMap id).foldl propStep ([], fm, wd)
  (r.1, { it with property_change_stream := d.2 }, r.2.1, r.2.2)

/-- One step of the layout drain: `self.dbus_menu_proxy.clone().unwrap()` is
evaluated for every drained pulse, so a missing menu capability panics
(`none`); otherwise the pulse's conversion is enqueued. -/
def layoutStep (menu : Option Unit)
    (acc : Option (List LoopEvent × FutureMap × WakerData)) (c : Conv) :
    Option (List LoopEvent × FutureMap × WakerData) := do
  let a ← acc
  match menu with
  | none => none
  | some _ =>
    let r := a.2.1.try_put c a.2.2
    some (a.1 ++ r.1.toList, r.2.1, r.2.2)

/-- `Item::poll_layout_change`: mint the `ItemSource(token, LayoutUpdate)`
waker; if the item has no layout stream produce nothing
(`unwrap_or_default`), otherwise drain it and enqueue one menu re-fetch
conversion per pulse, unwrapping the menu capability each time. -/
def Item.poll_layout_change (it : Item) (token : Token) (wd : WakerData)
    (fm : FutureMap) : Option (List LoopEvent × Item × FutureMap × WakerData) :=
  let wd := wd.mint ⟨WakeFrom.itemUpdate token ItemWakeFrom.layoutUpdate, none⟩
  match it.layout_updated_stream with
  | none => some ([], it, fm, wd)
  | some st =>
    let d := loop_until_pending st
    match (d.1.filterMap id).foldl (layoutStep it.dbus_menu_proxy)
        (some ([], fm, wd)) with
    | none => none
    | some r => some (r.1, { it with layout_updated_stream := some d.2 }, r.2.1, r.2.2)

/-- The orchestrator (`LoopInner` in the source).  The `connection` field is
used only by the (absent) `handle.rs` onboarding code and is omitted. -/
structure LoopInner where
  waker_data : Option WakerData
  ternimated : Bool
  polled : Bool
  futures : FutureMap
  watcher_stream_register_notifier_item_registered : List (Option (Token × Item))
  items : List (Token × Item)
deriving DecidableEq, Repr

/-- `LoopInner::new`. -/
def LoopInner.new (watcher : List (Option (Token × Item)))
    (items : List (Token × Item)) : LoopInner :=
  { waker_data := none, ternimated := false, polled := false, futures := ⟨[]⟩,
    watcher_stream_register_notifier_item_registered := watcher, items := items }

/-- `self.items.get(&token)` on the item table (modelled as an association
list; `HashMap` key uniqueness is the Token invariant of §3). -/
def LoopInner.get_item (s : LoopInner) (token : Token) : Option Item :=
  (s.items.find? fun p => p.1 == token).map Prod.snd

/-- Write back an item mutated in place through `get_mut`. -/
def LoopInner.set_item (s : LoopInner) (token : Token) (it : Item) : LoopInner :=
  { s with items := s.items.map fun p => if p.1 == token then (p.1, it) else p }

/-- Modelled from the spec: `handle_remove_item` lives in `handle.rs`, which is
not under `src/`.  Per §4.4, a matching disconnect notification causes the item
to be removed from the table and yields a removal event. -/
def LoopInner.handle_remove_item (s : LoopInner) (token : Token) (_d : Unit) :
    List Event × LoopInner :=
  ([Event.itemRemoved token], { s with items := s.items.filter fun p => p.1 != token })

/-- Modelled from the spec: `LoopEvent::process_by_loop` lives in `handle.rs`,
which is not under `src/`.  Per §6 a processed value expands into its domain
events; the item-table-mutating case the spec names is onboarding, which this
engine performs directly in `handle_new_item`. -/
def LoopEvent.process_by_loop (e : LoopEvent) (s : LoopInner) :
    List Event × LoopInner :=
  (e.events, s)

/-- `flat_map(|d| self.handle_remove_item(&token, d))` over drained disconnect
notifications. -/
def processRemovals (s : LoopInner) (token : Token) (ds : List Unit) :
    List Event × LoopInner :=
  ds.foldl (fun acc d =>
    let r := LoopInner.handle_remove_item acc.2 token d
    (acc.1 ++ r.1, r.2)) ([], s)

/-- `flat_map(|e| e.process_by_loop(self))` over ready conversion results. -/
def processLoopEvents (s : LoopInner) (les : List LoopEvent) :
    List Event × LoopInner :=
  les.foldl (fun acc le =>
    let r := LoopEvent.process_by_loop le acc.2
    (acc.1 ++ r.1, r.2)) ([], s)

/-- Modelled from the spec: the single-item first drain performed when
onboarding (§4.4: "immediately perform a first drain of its three sub-sources
(mirroring the baseline sweep for that one item)"). -/
def LoopInner.sweep_item (s : LoopInner) (token : Token) :
    Option (List Event × LoopInner) := do
  let item ← s.get_item token
  let wd ← s.waker_data
  let d := item.poll_disconnect token wd
  let p := d.2.1.poll_property_change token d.2.2 s.futures
  let l ← p.2.1.poll_layout_change token p.2.2.2 p.2.2.1
  let s1 := ({ s with waker_data := some l.2.2.2, futures := l.2.2.1 }).set_item token l.2.1
  let r1 := processRemovals s1 token d.1
  let r2 := processLoopEvents r1.2 p.1
  let r3 := processLoopEvents r2.2 l.1
  pure (r1.1 ++ r2.1 ++ r3.1, r3.2)

/-- Modelled from the spec: `handle_new_item` lives in `handle.rs`, which is
not under `src/`.  Per §4.4, a drained new-item announcement is onboarded:
construct the capability bundle and fresh token (the announcement is modelled
as already carrying them), insert into the item table, and immediately
first-drain the item's three sub-sources; it yields an item-added event
followed by the events of that first drain. -/
def LoopInner.handle_new_item (s : LoopInner) (reg : Token × Item) :
    Option (List Event × LoopInner) := do
  let s1 := { s with items := s.items ++ [reg] }
  let r ← s1.sweep_item reg.1
  pure (Event.itemAdded reg.1 :: r.1, r.2)

/-- One step of the `flat_map(|item| self.handle_new_item(item))` drain of the
new-item source. -/
def newItemStep (acc : Option (List Event × LoopInner)) (reg : Token × Item) :
    Option (List Event × LoopInner) := do
  let a ← acc
  let r ← a.2.handle_new_item reg
  pure (a.1 ++ r.1, r.2)

/-- `LoopInner::poll_item_stream`: mint the `NewItem` waker, drain the
new-item source until pending, and onboard each announced item. -/
def LoopInner.poll_item_stream (s : LoopInner) : Option (List Event × LoopInner) := do
  let wd ← s.waker_data
  let wd := wd.mint ⟨WakeFrom.newItem, none⟩
  let s1 := { s with waker_data := some wd }
  let d := loop_until_pending s1.watcher_stream_register_notifier_item_registered
  let s2 := { s1 with watcher_stream_register_notifier_item_registered := d.2 }
  (d.1.filterMap id).foldl newItemStep (pure ([], s2))

/-- `LoopInner::wake_from`: targeted dispatch of one drained tag.  The
`FutureEvent` branch is `self.futures.get(index)` (panics out of bounds) then
`.take().unwrap()` (panics on an empty slot); the `ItemUpdate` branch is
`self.items.get_mut(&token).unwrap()` (panics on an absent token). -/
def LoopInner.wake_from (s : LoopInner) (wf : WakeFrom) :
    Option (List Event × LoopInner) :=
  match wf with
  | WakeFrom.newItem => s.poll_item_stream
  | WakeFrom.futureEvent index => do
    let slot ← s.futures.get index
    let fut ← slot
    let s1 := { s with futures := s.futures.set index none }
    let wd ← s1.waker_data
    let wd := wd.mint ⟨WakeFrom.futureEvent index, some fut.cid⟩
    let s2 := { s1 with waker_data := some wd }
    match fut.poll with
    | Sum.inl e =>
      match e with
      | some ev => some (LoopEvent.process_by_loop ev s2)
      | none => some ([], s2)
    | Sum.inr fut2 => some ([], { s2 with futures := s2.futures.set index (some fut2) })
  | WakeFrom.itemUpdate token item_wake_from => do
    let item ← s.get_item token
    let wd ← s.waker_data
    match item_wake_from with
    | ItemWakeFrom.disconnect =>
      let d := item.poll_disconnect token wd
      let s1 := ({ s with waker_data := some d.2.2 }).set_item token d.2.1
      pure (processRemovals s1 token d.1)
    | ItemWakeFrom.propertyChange =>
      let p := item.poll_property_change token wd s.futures
      let s1 := ({ s with waker_data := some p.2.2.2, futures := p.2.2.1 }).set_item token p.2.1
      pure (processLoopEvents s1 p.1)
    | ItemWakeFrom.layoutUpdate => do
      let l ← item.poll_layout_change token wd s.futures
      let s1 := ({ s with waker_data := some l.2.2.2, futures := l.2.2.1 }).set_item token l.2.1
      pure (processLoopEvents s1 l.1)

/-- Phase 1 of `LoopInner::first_poll`: poll one item's three sub-sources,
accumulating the per-item drain results, the mutated item, the slot table and
the wake state. -/
def firstPollStep
    (acc : Option (List (Token × List Unit × List LoopEvent × List LoopEvent) ×
      List (Token × Item) × FutureMap × WakerData)) (p : Token × Item) :
    Option (List (Token × List Unit × List LoopEvent × List LoopEvent) ×
      List (Token × Item) × FutureMap × WakerData) := do
  let a ← acc
  let d := p.2.poll_disconnect p.1 a.2.2.2
  let pr := d.2.1.poll_property_change p.1 d.2.2 a.2.2.1
  let l ← pr.2.1.poll_layout_change p.1 pr.2.2.2 pr.2.2.1
  pure (a.1 ++ [(p.1, d.1, pr.1, l.1)], a.2.1 ++ [(p.1, l.2.1)], l.2.2.1, l.2.2.2)

/-- Phase 2 of `LoopInner::first_poll`: process one item's drain results —
removals, then property conversions, then layout conversions. -/
def processTuple (acc : List Event × LoopInner)
    (t : Token × List Unit × List LoopEvent × List LoopEvent) :
    List Event × LoopInner :=
  let (e1, s1) := processRemovals acc.2 t.1 t.2.1
  let (e2, s2) := processLoopEvents s1 t.2.2.1
  let (e3, s3) := processLoopEvents s2 t.2.2.2
  (acc.1 ++ e1 ++ e2 ++ e3, s3)

/-- `LoopInner::first_poll`: the baseline sweep — drain every known item's
three sub-sources, process all the drain results, then drain the new-item
source. -/
def LoopInner.first_poll (s : LoopInner) : Option (List Event × LoopInner) := do
  let waker_data ← s.waker_data
  let a ← s.items.foldl firstPollStep (pure ([], [], s.futures, waker_data))
  let s1 := { s with items := a.2.1, futures := a.2.2.1, waker_data := some a.2.2.2 }
  let r := a.1.foldl processTuple ([], s1)
  let r2 ← r.2.poll_item_stream
  pure (r.1 ++ r2.1, r2.2)

/-- One step of the tag-dispatch `flat_map`. -/
def dispatchStep (acc : Option (List Event × LoopInner)) (w : LoopWaker) :
    Option (List Event × LoopInner) := do
  let a ← acc
  let r ← a.2.wake_from w.wake_from
  pure (a.1 ++ r.1, r.2)

/-- `.drain(..).flat_map(|f| self.wake_from(f)).collect()`: dispatch a list of
drained tags in order, each exactly once. -/
def LoopInner.dispatch_tags (s : LoopInner) (tags : List LoopWaker) :
    Option (List Event × LoopInner) :=
  tags.foldl dispatchStep (pure ([], s))

/-- The body of `Stream::poll_next` up to the classification of the batch:
first poll runs the baseline sweep after constructing the shared wake state;
later polls take the whole pending list (leaving it empty) and dispatch it. -/
def LoopInner.poll_next_inner (s : LoopInner) : Option (List Event × LoopInner) :=
  if !s.polled then
    let s1 := { s with polled := true, waker_data := some ⟨[], false, []⟩ }
    s1.first_poll
  else do
    let wd ← s.waker_data
    let s1 := { s with waker_data := some { wd with ready_tokens := [], root_notified := false } }
    s1.dispatch_tags wd.ready_tokens

/-- The three outcomes of one check: a non-empty batch (`Ready(Some(events))`),
end-of-sequence (`Ready(None)`), or not ready (`Pending`). -/
inductive PollOut
| readySome (evs : List Event)
| readyNone
| pendingOut
deriving DecidableEq, Repr

/-- `Stream::poll_next`: compute the batch, then classify — terminated beats
everything, then an empty batch is `Pending`, else the batch is delivered. -/
def LoopInner.poll_next (s : LoopInner) : Option (PollOut × LoopInner) := do
  let r ← s.poll_next_inner
  if r.2.ternimated then pure (PollOut.readyNone, r.2)
  else if r.1.isEmpty then pure (PollOut.pendingOut, r.2)
  else pure (PollOut.readySome r.1, r.2)

/-- The pending-tag list, as seen through the shared wake state. -/
def LoopInner.pending (s : LoopInner) : List LoopWaker :=
  (s.waker_data.map WakerData.ready_tokens).getD []

/-- Ghost view: every waker the engine has handed out so far. -/
def LoopInner.minted_wakers (s : LoopInner) : List LoopWaker :=
  (s.waker_data.map WakerData.minted).getD []

/-- An environment invocation of a distributed wake handle. -/
def LoopInner.push_wake (s : LoopInner) (w : LoopWaker) : LoopInner :=
  { s with waker_data := s.waker_data.map fun wd => wd.wake_by_ref w }

/-- The state at the start of a subsequent check, after the drain took
ownership of the whole pending list. -/
def LoopInner.clear_pending (s : LoopInner) : LoopInner :=
  { s with waker_data := s.waker_data.map fun wd =>
      { wd with ready_tokens := [], root_notified := false } }

/-- Apply a mutation to the item with the given token, if present. -/
def LoopInner.map_item (s : LoopInner) (t : Token) (f : Item → Item) : LoopInner :=
  { s with items := s.items.map fun p => if p.1 == t then (p.1, f p.2) else p }

/-- Environment: the bus buffers one more poll result on an item's
property-change stream. -/
def LoopInner.deliver_property (s : LoopInner) (t : Token) (c : Option Conv) : LoopInner :=
  s.map_item t fun it =>
    { it with property_change_stream := it.property_change_stream ++ [c] }

/-- Environment: the bus buffers one more poll result on an item's disconnect
stream. -/
def LoopInner.deliver_disconnect (s : LoopInner) (t : Token) (d : Option Unit) : LoopInner :=
  s.map_item t fun it =>
    { it with disconnect_stream := it.disconnect_stream ++ [d] }

/-- Environment: the bus buffers one more poll result on an item's
layout-change stream, when that stream exists. -/
def LoopInner.deliver_layout (s : LoopInner) (t : Token) (c : Option Conv) : LoopInner :=
  s.map_item t fun it =>
    { it with layout_updated_stream := it.layout_updated_stream.map (· ++ [c]) }

/-- Environment: the bus buffers one more poll result on the new-item source. -/
def LoopInner.deliver_new_item (s : LoopInner) (r : Option (Token × Item)) : LoopInner :=
  { s with watcher_stream_register_notifier_item_registered :=
      s.watcher_stream_register_notifier_item_registered ++ [r] }

/-- One step of the system: either the consumer performs a check, or the
environment invokes a previously distributed wake handle (the waker contract
allows any number of invocations per handle, from any context), or the bus
delivers data to one of the buffered sources. -/
inductive EnvStep : LoopInner → LoopInner → Prop
| poll {s : LoopInner} (out : PollOut) (s' : LoopInner) :
    s.poll_next = some (out, s') → EnvStep s s'
| wake {s : LoopInner} (w : LoopWaker) :
    w ∈ s.minted_wakers → EnvStep s (s.push_wake w)
| deliver_property {s : LoopInner} (t : Token) (c : Option Conv) :
    EnvStep s (s.deliver_property t c)
| deliver_disconnect {s : LoopInner} (t : Token) (d : Option Unit) :
    EnvStep s (s.deliver_disconnect t d)
| deliver_layout {s : LoopInner} (t : Token) (c : Option Conv) :
    EnvStep s (s.deliver_layout t c)
| deliver_new_item {s : LoopInner} (r : Option (Token × Item)) :
    EnvStep s (s.deliver_new_item r)

/-- States reachable from a freshly constructed engine. -/
inductive Reachable : LoopInner → Prop
| init (watcher : List (Option (Token × Item))) (items : List (Token × Item)) :
    Reachable (LoopInner.new watcher items)
| step {s s' : LoopInner} : Reachable s → EnvStep s s' → Reachable s'

/-- The state after the in-progress check has dispatched the first `k` of the
drained tags, paired with the tags still undispatched (the lazy `drain(..)` of
the source removes tags one at a time as they are dispatched). -/
def LoopInner.dispatch_take (s : LoopInner) :
    List LoopWaker → Nat → Option (LoopInner × List LoopWaker)
| tags, 0 => some (s, tags)
| [], _ + 1 => some (s, [])
| w :: rest, k + 1 => do
  let r ← s.wake_from w.wake_from
  r.2.dispatch_take rest k

/-- One undispatched `Conversion` waker is consistent with the slot table if
the slot it points at is free or still holds the conversion the waker was
minted for. -/
def wakerSlotOk (fm : FutureMap) (w : LoopWaker) : Bool :=
  match w.wake_from with
  | WakeFrom.futureEvent i =>
    match fm.map.get? i with
    | some (some c) => w.for_conv == some c.cid
    | _ => true
  | _ => true

/-- Every undispatched `Conversion` waker points at a free slot or at the
conversion it was minted for (§3's slot-table invariant). -/
def slot_tags_consistent (tags : List LoopWaker) (fm : FutureMap) : Bool :=
  tags.all (wakerSlotOk fm)

/-! ### Basic facts about the shared wake state and the slot table -/

theorem WakerData.mint_ready_tokens (wd : WakerData) (w : LoopWaker) :
    (wd.mint w).ready_tokens = wd.ready_tokens := rfl

theorem WakerData.mint_root (wd : WakerData) (w : LoopWaker) :
    (wd.mint w).root_notified = wd.root_notified := rfl

theorem try_put_wd (fm : FutureMap) (fut : Conv) (wd : WakerData) :
    ((fm.try_put fut wd).2.2).ready_tokens = wd.ready_tokens ∧
    ((fm.try_put fut wd).2.2).root_notified = wd.root_notified := by
  unfold FutureMap.try_put
  cases fut.poll <;> simp [WakerData.mint]

theorem propStep_fold_wd (l : List Conv) :
    ∀ (acc : List LoopEvent) (fm : FutureMap) (wd : WakerData),
    ((l.foldl propStep (acc, fm, wd)).2.2).ready_tokens = wd.ready_tokens ∧
    ((l.foldl propStep (acc, fm, wd)).2.2).root_notified = wd.root_notified := by
  induction l with
  | nil => intro acc fm wd; simp
  | cons c l ih =>
    intro acc fm wd
    rw [List.foldl_cons]
    have h := try_put_wd fm c wd
    have h2 := ih (acc ++ (fm.try_put c wd).1.toList) (fm.try_put c wd).2.1 (fm.try_put c wd).2.2
    simp only [propStep] at h2 ⊢
    exact ⟨h2.1.trans h.1, h2.2.trans h.2⟩

theorem layoutStep_fold_none (m : Option Unit) (l : List Conv) :
    l.foldl (layoutStep m) none = none := by
  induction l with
  | nil => rfl
  | cons c l ih => rw [List.foldl_cons]; simpa [layoutStep] using ih

theorem layoutStep_fold_wd (m : Option Unit) (l : List Conv) :
    ∀ (acc : List LoopEvent) (fm : FutureMap) (wd : WakerData) (r),
    l.foldl (layoutStep m) (some (acc, fm, wd)) = some r →
    r.2.2.ready_tokens = wd.ready_tokens ∧ r.2.2.root_notified = wd.root_notified := by
  induction l with
  | nil => intro acc fm wd r h; cases h; simp
  | cons c l ih =>
    intro acc fm wd r h
    rw [List.foldl_cons] at h
    cases m with
    | none => rw [show layoutStep none (some (acc, fm, wd)) c = none from rfl,
        layoutStep_fold_none] at h; cases h
    | some u =>
      have hs : layoutStep (some u) (some (acc, fm, wd)) c =
          some (acc ++ (fm.try_put c wd).1.toList, (fm.try_put c wd).2.1,
            (fm.try_put c wd).2.2) := rfl
      rw [hs] at h
      have h2 := ih _ _ _ _ h
      have h3 := try_put_wd fm c wd
      exact ⟨h2.1.trans h3.1, h2.2.trans h3.2⟩

theorem poll_disconnect_wd (it : Item) (t : Token) (wd : WakerData) :
    ((it.poll_disconnect t wd).2.2).ready_tokens = wd.ready_tokens ∧
    ((it.poll_disconnect t wd).2.2).root_notified = wd.root_notified := by
  simp [Item.poll_disconnect, WakerData.mint]

theorem poll_property_change_wd (it : Item) (t : Token) (wd : WakerData) (fm : FutureMap) :
    ((it.poll_property_change t wd fm).2.2.2).ready_tokens = wd.ready_tokens ∧
    ((it.poll_property_change t wd fm).2.2.2).root_notified = wd.root_notified := by
  unfold Item.poll_property_change
  have h := propStep_fold_wd ((loop_until_pending it.property_change_stream).1.filterMap id)
    [] fm (wd.mint ⟨WakeFrom.itemUpdate t ItemWakeFrom.propertyChange, none⟩)
  simpa [WakerData.mint] using h

theorem poll_layout_change_wd (it : Item) (t : Token) (wd : WakerData) (fm : FutureMap)
    (r : List LoopEvent × Item × FutureMap × WakerData)
    (h : it.poll_layout_change t wd fm = some r) :
    r.2.2.2.ready_tokens = wd.ready_tokens ∧
    r.2.2.2.root_notified = wd.root_notified := by
  unfold Item.poll_layout_change at h
  simp only [loop_until_pending] at h
  split at h
  · cases h; simp [WakerData.mint]
  · split at h
    · cases h
    · rename_i st hst r2 hf
      cases h
      have h2 := layoutStep_fold_wd it.dbus_menu_proxy _ _ _ _ _ hf
      simpa [WakerData.mint] using h2

/-! ### Facts about the item table and the processing helpers -/

theorem pending_some {s : LoopInner} {wd : WakerData} (h : s.waker_data = some wd) :
    s.pending = wd.ready_tokens := by
  simp [LoopInner.pending, h]

theorem processLoopEvents_go (les : List LoopEvent) :
    ∀ (a : List Event) (s : LoopInner),
    les.foldl (fun acc le =>
      let r := LoopEvent.process_by_loop le acc.2
      (acc.1 ++ r.1, r.2)) (a, s) = (a ++ (les.map LoopEvent.events).flatten, s) := by
  induction les with
  | nil => intro a s; simp
  | cons le les ih =>
    intro a s
    rw [List.foldl_cons]
    exact (ih (a ++ le.events) s).trans (by simp)

theorem processLoopEvents_eq (s : LoopInner) (les : List LoopEvent) :
    processLoopEvents s les = ((les.map LoopEvent.events).flatten, s) := by
  simpa [processLoopEvents] using processLoopEvents_go les [] s

theorem processRemovals_shape (ds : List Unit) :
    ∀ (a : List Event) (s : LoopInner) (t : Token),
    (ds.foldl (fun acc d =>
      let r := LoopInner.handle_remove_item acc.2 t d
      (acc.1 ++ r.1, r.2)) (a, s)).2 =
    { s with items := (ds.foldl (fun acc d =>
      let r := LoopInner.handle_remove_item acc.2 t d
      (acc.1 ++ r.1, r.2)) (a, s)).2.items } := by
  induction ds with
  | nil => intro a s t; rfl
  | cons d ds ih =>
    intro a s t
    rw [List.foldl_cons]
    exact ih (a ++ (s.handle_remove_item t d).1) (s.handle_remove_item t d).2 t

theorem processRemovals_state (s : LoopInner) (t : Token) (ds : List Unit) :
    (processRemovals s t ds).2 = { s with items := (processRemovals s t ds).2.items } := by
  simpa [processRemovals] using processRemovals_shape ds [] s t

theorem find_filter_ne (l : List (Token × Item)) (t t' : Token) (h : t' ≠ t) :
    ((l.filter fun p => p.1 != t).find? fun p => p.1 == t') =
      l.find? fun p => p.1 == t' := by
  induction l with
  | nil => rfl
  | cons p l ih =>
    rw [List.filter_cons]
    by_cases hp : p.1 = t
    · have h1 : (p.1 != t) = false := by simp [hp]
      have h2 : ¬((p.1 == t') = true) := by
        simp only [beq_iff_eq, hp]
        exact fun hh => h hh.symm
      rw [h1, List.find?_cons_of_neg l h2]
      simp only [Bool.false_eq_true, if_false]
      exact ih
    · have h1 : (p.1 != t) = true := by simp [hp]
      rw [h1, if_pos rfl]
      by_cases hpt : p.1 = t'
      · rw [List.find?_cons_of_pos _ (by simp [hpt]),
          List.find?_cons_of_pos _ (by simp [hpt])]
      · rw [List.find?_cons_of_neg _ (by simp [hpt]),
          List.find?_cons_of_neg _ (by simp [hpt])]
        exact ih

theorem find_map_set_ne (l : List (Token × Item)) (t t' : Token) (it : Item) (h : t' ≠ t) :
    ((l.map fun p => if p.1 == t then (p.1, it) else p).find? fun p => p.1 == t') =
      l.find? fun p => p.1 == t' := by
  induction l with
  | nil => rfl
  | cons p l ih =>
    rw [List.map_cons]
    by_cases hp : p.1 = t
    · have h2 : ¬((p.1 == t') = true) := by
        simp only [beq_iff_eq, hp]
        exact fun hh => h hh.symm
      rw [if_pos (by simp [hp]),
        List.find?_cons_of_neg (p := fun q => q.1 == t') (a := (p.1, it)) _ h2,
        List.find?_cons_of_neg (p := fun q => q.1 == t') (a := p) _ h2]
      exact ih
    · rw [if_neg (by simp [hp])]
      by_cases hpt : p.1 = t'
      · rw [List.find?_cons_of_pos _ (by simp [hpt]),
          List.find?_cons_of_pos _ (by simp [hpt])]
      · rw [List.find?_cons_of_neg _ (by simp [hpt]),
          List.find?_cons_of_neg _ (by simp [hpt])]
        exact ih

theorem find_map_set_self (l : List (Token × Item)) (t : Token) (it : Item) :
    ∀ q, l.find? (fun p => p.1 == t) = some q →
    ((l.map fun p => if p.1 == t then (p.1, it) else p).find? fun p => p.1 == t) =
      some (q.1, it) := by
  induction l with
  | nil => intro q hq; cases hq
  | cons p l ih =>
    intro q hq
    rw [List.map_cons]
    by_cases hpt : p.1 = t
    · rw [List.find?_cons_of_pos _ (by simp [hpt])] at hq
      cases hq
      rw [if_pos (by simp [hpt]),
        List.find?_cons_of_pos (p := fun q => q.1 == t) (a := (p.1, it)) _ (by simp [hpt])]
    · rw [List.find?_cons_of_neg _ (by simp [hpt])] at hq
      rw [if_neg (by simp [hpt]), List.find?_cons_of_neg _ (by simp [hpt])]
      exact ih q hq
theorem get_item_set_item_ne (s : LoopInner) (t t' : Token) (it : Item) (h : t' ≠ t) :
    (s.set_item t it).get_item t' = s.get_item t' := by
  simp only [LoopInner.get_item, LoopInner.set_item]
  rw [find_map_set_ne _ _ _ _ h]

theorem get_item_set_item_self (s : LoopInner) (t : Token) (it it0 : Item)
    (h : s.get_item t = some it0) :
    (s.set_item t it).get_item t = some it := by
  simp only [LoopInner.get_item, LoopInner.set_item] at h ⊢
  cases hf : s.items.find? fun p => p.1 == t with
  | none => rw [hf] at h; cases h
  | some q => rw [find_map_set_self s.items t it q hf]; rfl

theorem get_item_handle_remove_ne (s : LoopInner) (t t' : Token) (d : Unit) (h : t' ≠ t) :
    (s.handle_remove_item t d).2.get_item t' = s.get_item t' := by
  simp only [LoopInner.get_item, LoopInner.handle_remove_item]
  rw [find_filter_ne _ _ _ h]

theorem processRemovals_get_ne (ds : List Unit) :
    ∀ (a : List Event) (s : LoopInner) (t t' : Token), t' ≠ t →
    ((ds.foldl (fun acc d =>
      let r := LoopInner.handle_remove_item acc.2 t d
      (acc.1 ++ r.1, r.2)) (a, s)).2).get_item t' = s.get_item t' := by
  induction ds with
  | nil => intro a s t t' _; rfl
  | cons d ds ih =>
    intro a s t t' h
    rw [List.foldl_cons]
    have := ih (a ++ (s.handle_remove_item t d).1) (s.handle_remove_item t d).2 t t' h
    simp only at this ⊢
    rw [this, get_item_handle_remove_ne _ _ _ _ h]

/-! ### Dispatch preserves the engine flags and the pending list -/

theorem sweep_item_frame (s : LoopInner) (t : Token) (r : List Event × LoopInner)
    (h : s.sweep_item t = some r) :
    r.2.ternimated = s.ternimated ∧ r.2.polled = s.polled ∧ r.2.pending = s.pending := by
  unfold LoopInner.sweep_item at h
  simp only [Option.pure_def, Option.bind_eq_bind, bind, Option.bind_eq_some] at h
  obtain ⟨item, hgi, wd, hwd, l, hl, hr⟩ := h
  simp only [Option.some.injEq] at hr
  subst hr
  refine ⟨?_, ?_, ?_⟩
  · simp only [processLoopEvents_eq]
    rw [processRemovals_state]
    rfl
  · simp only [processLoopEvents_eq]
    rw [processRemovals_state]
    rfl
  · simp only [processLoopEvents_eq]
    rw [processRemovals_state]
    simp only [LoopInner.pending, LoopInner.set_item, Option.map_some']
    rw [(poll_layout_change_wd _ _ _ _ _ hl).1, (poll_property_change_wd _ _ _ _).1,
      (poll_disconnect_wd _ _ _).1, hwd]
    rfl

theorem handle_new_item_frame (s : LoopInner) (reg : Token × Item)
    (r : List Event × LoopInner) (h : s.handle_new_item reg = some r) :
    r.2.ternimated = s.ternimated ∧ r.2.polled = s.polled ∧ r.2.pending = s.pending := by
  unfold LoopInner.handle_new_item at h
  simp only [Option.pure_def, Option.bind_eq_bind, bind, Option.bind_eq_some] at h
  obtain ⟨a, ha, hr⟩ := h
  simp only [Option.some.injEq] at hr
  subst hr
  have h3 := sweep_item_frame _ _ _ ha
  exact ⟨h3.1, h3.2.1, h3.2.2⟩

theorem newItemStep_none (reg : Token × Item) : newItemStep none reg = none := rfl

theorem newItemStep_fold_none (l : List (Token × Item)) :
    l.foldl newItemStep none = none := by
  induction l with
  | nil => rfl
  | cons reg l ih => rw [List.foldl_cons, newItemStep_none, ih]

theorem newitem_fold_frame (regs : List (Token × Item)) :
    ∀ (a r : List Event × LoopInner),
    regs.foldl newItemStep (some a) = some r →
    r.2.ternimated = a.2.ternimated ∧ r.2.polled = a.2.polled ∧
      r.2.pending = a.2.pending := by
  induction regs with
  | nil => intro a r h; cases h; exact ⟨rfl, rfl, rfl⟩
  | cons reg regs ih =>
    intro a r h
    rw [List.foldl_cons] at h
    cases hni : a.2.handle_new_item reg with
    | none =>
      rw [show newItemStep (some a) reg = none by
        simp [newItemStep, hni], newItemStep_fold_none] at h
      cases h
    | some b =>
      rw [show newItemStep (some a) reg = some (a.1 ++ b.1, b.2) by
        simp [newItemStep, hni]] at h
      have h2 := ih (a.1 ++ b.1, b.2) r h
      have h3 := handle_new_item_frame _ _ _ hni
      exact ⟨h2.1.trans h3.1, h2.2.1.trans h3.2.1, h2.2.2.trans h3.2.2⟩

theorem poll_item_stream_frame (s : LoopInner) (r : List Event × LoopInner)
    (h : s.poll_item_stream = some r) :
    r.2.ternimated = s.ternimated ∧ r.2.polled = s.polled ∧ r.2.pending = s.pending := by
  unfold LoopInner.poll_item_stream at h
  simp only [Option.pure_def, Option.bind_eq_bind, bind, Option.bind_eq_some] at h
  obtain ⟨wd, hwd, h⟩ := h
  have h2 := newitem_fold_frame _ _ _ h
  refine ⟨h2.1, h2.2.1, h2.2.2.trans ?_⟩
  simp [LoopInner.pending, hwd, WakerData.mint]

theorem wake_from_frame (s : LoopInner) (wf : WakeFrom) (r : List Event × LoopInner)
    (h : s.wake_from wf = some r) :
    r.2.ternimated = s.ternimated ∧ r.2.polled = s.polled ∧ r.2.pending = s.pending := by
  cases wf with
  | newItem => exact poll_item_stream_frame s r h
  | futureEvent index =>
    unfold LoopInner.wake_from at h
    simp only [Option.pure_def, Option.bind_eq_bind, bind, Option.bind_eq_some] at h
    obtain ⟨slot, hslot, fut, hfut, wd, hwd, h⟩ := h
    have hwd2 : s.waker_data = some wd := hwd
    cases hp : fut.poll with
    | inl e =>
      rw [hp] at h
      cases e with
      | some ev =>
        simp only [Option.some.injEq] at h
        subst h
        simp [LoopEvent.process_by_loop, LoopInner.pending, hwd2, WakerData.mint]
      | none =>
        simp only [Option.some.injEq] at h
        subst h
        simp [LoopInner.pending, hwd2, WakerData.mint]
    | inr fut2 =>
      rw [hp] at h
      simp only [Option.some.injEq] at h
      subst h
      simp [LoopInner.pending, hwd2, WakerData.mint]
  | itemUpdate token item_wake_from =>
    unfold LoopInner.wake_from at h
    simp only [Option.pure_def, Option.bind_eq_bind, bind, Option.bind_eq_some] at h
    obtain ⟨item, hitem, wd, hwd, h⟩ := h
    cases item_wake_from with
    | disconnect =>
      simp only [Option.some.injEq] at h
      subst h
      rw [processRemovals_state]
      refine ⟨rfl, rfl, ?_⟩
      simp only [LoopInner.pending, LoopInner.set_item, Option.map_some']
      rw [(poll_disconnect_wd _ _ _).1, hwd]
      rfl
    | propertyChange =>
      simp only [Option.some.injEq] at h
      subst h
      simp only [processLoopEvents_eq]
      refine ⟨rfl, rfl, ?_⟩
      simp only [LoopInner.pending, LoopInner.set_item, Option.map_some']
      rw [(poll_property_change_wd _ _ _ _).1, hwd]
      rfl
    | layoutUpdate =>
      simp only [Option.bind_eq_some] at h
      obtain ⟨l, hl, h⟩ := h
      simp only [Option.some.injEq] at h
      subst h
      simp only [processLoopEvents_eq]
      refine ⟨rfl, rfl, ?_⟩
      simp only [LoopInner.pending, LoopInner.set_item, Option.map_some']
      rw [(poll_layout_change_wd _ _ _ _ _ hl).1, hwd]
      rfl

theorem dispatchStep_none (w : LoopWaker) : dispatchStep none w = none := rfl

theorem dispatchStep_fold_none (l : List LoopWaker) :
    l.foldl dispatchStep none = none := by
  induction l with
  | nil => rfl
  | cons w l ih => rw [List.foldl_cons, dispatchStep_none, ih]

theorem dispatch_fold_frame (tags : List LoopWaker) :
    ∀ (a r : List Event × LoopInner),
    tags.foldl dispatchStep (some a) = some r →
    r.2.ternimated = a.2.ternimated ∧ r.2.polled = a.2.polled ∧
      r.2.pending = a.2.pending := by
  induction tags with
  | nil => intro a r h; cases h; exact ⟨rfl, rfl, rfl⟩
  | cons w tags ih =>
    intro a r h
    rw [List.foldl_cons] at h
    cases hwf : a.2.wake_from w.wake_from with
    | none =>
      rw [show dispatchStep (some a) w = none by simp [dispatchStep, hwf],
        dispatchStep_fold_none] at h
      cases h
    | some b =>
      rw [show dispatchStep (some a) w = some (a.1 ++ b.1, b.2) by
        simp [dispatchStep, hwf]] at h
      have h2 := ih (a.1 ++ b.1, b.2) r h
      have h3 := wake_from_frame _ _ _ hwf
      exact ⟨h2.1.trans h3.1, h2.2.1.trans h3.2.1, h2.2.2.trans h3.2.2⟩

theorem dispatch_tags_frame (s : LoopInner) (tags : List LoopWaker)
    (r : List Event × LoopInner) (h : s.dispatch_tags tags = some r) :
    r.2.ternimated = s.ternimated ∧ r.2.polled = s.polled ∧ r.2.pending = s.pending := by
  exact dispatch_fold_frame tags ([], s) r h

theorem firstPollStep_some (a : List (Token × List Unit × List LoopEvent × List LoopEvent) ×
      List (Token × Item) × FutureMap × WakerData) (p : Token × Item)
    (r : List (Token × List Unit × List LoopEvent × List LoopEvent) ×
      List (Token × Item) × FutureMap × WakerData)
    (h : firstPollStep (some a) p = some r) :
    r.2.2.2.ready_tokens = a.2.2.2.ready_tokens ∧
    r.2.2.2.root_notified = a.2.2.2.root_notified := by
  unfold firstPollStep at h
  simp only [Option.pure_def, Option.bind_eq_bind, bind, Option.bind_eq_some] at h
  obtain ⟨x, hx, l, hl, hr⟩ := h
  simp only [Option.some.injEq] at hx
  subst hx
  simp only [Option.some.injEq] at hr
  subst hr
  exact ⟨((poll_layout_change_wd _ _ _ _ _ hl).1.trans
      ((poll_property_change_wd _ _ _ _).1.trans (poll_disconnect_wd _ _ _).1)),
    ((poll_layout_change_wd _ _ _ _ _ hl).2.trans
      ((poll_property_change_wd _ _ _ _).2.trans (poll_disconnect_wd _ _ _).2))⟩

theorem firstPollStep_none (p : Token × Item) : firstPollStep none p = none := rfl

theorem firstPollStep_fold_none (l : List (Token × Item)) :
    l.foldl firstPollStep none = none := by
  induction l with
  | nil => rfl
  | cons p l ih => rw [List.foldl_cons, firstPollStep_none, ih]

theorem firstPoll_fold_wd (items : List (Token × Item)) :
    ∀ (a r : List (Token × List Unit × List LoopEvent × List LoopEvent) ×
      List (Token × Item) × FutureMap × WakerData),
    items.foldl firstPollStep (some a) = some r →
    r.2.2.2.ready_tokens = a.2.2.2.ready_tokens ∧
    r.2.2.2.root_notified = a.2.2.2.root_notified := by
  induction items with
  | nil => intro a r h; cases h; exact ⟨rfl, rfl⟩
  | cons p items ih =>
    intro a r h
    rw [List.foldl_cons] at h
    cases hstep : firstPollStep (some a) p with
    | none => rw [hstep, firstPollStep_fold_none] at h; cases h
    | some b =>
      rw [hstep] at h
      have h2 := ih b r h
      have h3 := firstPollStep_some a p b hstep
      exact ⟨h2.1.trans h3.1, h2.2.trans h3.2⟩

theorem processTuple_state (acc : List Event × LoopInner)
    (t : Token × List Unit × List LoopEvent × List LoopEvent) :
    (processTuple acc t).2.ternimated = acc.2.ternimated ∧
    (processTuple acc t).2.polled = acc.2.polled ∧
    (processTuple acc t).2.waker_data = acc.2.waker_data := by
  simp only [processTuple, processLoopEvents_eq]
  rw [processRemovals_state]
  exact ⟨rfl, rfl, rfl⟩

theorem processTuple_fold_state
    (tuples : List (Token × List Unit × List LoopEvent × List LoopEvent)) :
    ∀ (acc : List Event × LoopInner),
    (tuples.foldl processTuple acc).2.ternimated = acc.2.ternimated ∧
    (tuples.foldl processTuple acc).2.polled = acc.2.polled ∧
    (tuples.foldl processTuple acc).2.waker_data = acc.2.waker_data := by
  induction tuples with
  | nil => intro acc; exact ⟨rfl, rfl, rfl⟩
  | cons t tuples ih =>
    intro acc
    rw [List.foldl_cons]
    have h2 := ih (processTuple acc t)
    have h3 := processTuple_state acc t
    exact ⟨h2.1.trans h3.1, h2.2.1.trans h3.2.1, h2.2.2.trans h3.2.2⟩

theorem first_poll_frame (s : LoopInner) (r : List Event × LoopInner)
    (h : s.first_poll = some r) :
    r.2.ternimated = s.ternimated ∧ r.2.polled = s.polled ∧ r.2.pending = s.pending := by
  unfold LoopInner.first_poll at h
  simp only [Option.pure_def, Option.bind_eq_bind, bind, Option.bind_eq_some] at h
  obtain ⟨wd0, hwd0, a, ha, r2, hr2, hr⟩ := h
  simp only [Option.some.injEq] at hr
  subst hr
  have hfold := firstPoll_fold_wd _ _ _ ha
  have hpt := processTuple_fold_state a.1 ([],
    { s with items := a.2.1, futures := a.2.2.1, waker_data := some a.2.2.2 })
  have hpis := poll_item_stream_frame _ _ hr2
  refine ⟨hpis.1.trans hpt.1, hpis.2.1.trans hpt.2.1, hpis.2.2.trans ?_⟩
  show (a.1.foldl processTuple _).2.pending = s.pending
  simp only [LoopInner.pending, hpt.2.2, Option.map_some']
  rw [hfold.1, hwd0]
  rfl

theorem poll_next_inner_after (s : LoopInner) (r : List Event × LoopInner)
    (h : s.poll_next_inner = some r) :
    r.2.ternimated = s.ternimated ∧ r.2.polled = true ∧ r.2.pending = [] := by
  unfold LoopInner.poll_next_inner at h
  by_cases hp : s.polled
  · rw [if_neg (by simp [hp])] at h
    simp only [Option.pure_def, Option.bind_eq_bind, bind, Option.bind_eq_some] at h
    obtain ⟨wd, hwd, h⟩ := h
    have h2 := dispatch_tags_frame _ _ _ h
    exact ⟨h2.1, h2.2.1.trans hp, h2.2.2⟩
  · rw [if_pos (by simp [hp])] at h
    have h2 := first_poll_frame _ _ h
    exact ⟨h2.1, h2.2.1, h2.2.2⟩

theorem poll_next_after (s : LoopInner) (out : PollOut) (s' : LoopInner)
    (h : s.poll_next = some (out, s')) :
    s'.ternimated = s.ternimated ∧ s'.polled = true ∧ s'.pending = [] ∧
    (s.ternimated = false → out ≠ PollOut.readyNone) := by
  unfold LoopInner.poll_next at h
  simp only [Option.pure_def, Option.bind_eq_bind, bind, Option.bind_eq_some] at h
  obtain ⟨r, hr, hc⟩ := h
  have h2 := poll_next_inner_after s r hr
  cases htern : r.2.ternimated with
  | true =>
    rw [if_pos (by rw [htern])] at hc
    simp only [Option.some.injEq, Prod.mk.injEq] at hc
    obtain ⟨hout, hs'⟩ := hc
    subst hs'
    refine ⟨h2.1, h2.2.1, h2.2.2, ?_⟩
    intro hfalse
    rw [← h2.1, htern] at hfalse
    cases hfalse
  | false =>
    rw [if_neg (by rw [htern]; exact Bool.false_ne_true)] at hc
    by_cases he : r.1.isEmpty
    · rw [if_pos he] at hc
      simp only [Option.some.injEq, Prod.mk.injEq] at hc
      obtain ⟨hout, hs'⟩ := hc
      subst hs'
      exact ⟨h2.1, h2.2.1, h2.2.2, fun _ => by rw [← hout]; intro hx; cases hx⟩
    · rw [if_neg he] at hc
      simp only [Option.some.injEq, Prod.mk.injEq] at hc
      obtain ⟨hout, hs'⟩ := hc
      subst hs'
      exact ⟨h2.1, h2.2.1, h2.2.2, fun _ => by rw [← hout]; intro hx; cases hx⟩

theorem wake_by_ref_fold_rt (ws : List LoopWaker) :
    ∀ wd : WakerData,
    (ws.foldl WakerData.wake_by_ref wd).ready_tokens = wd.ready_tokens ++ ws := by
  induction ws with
  | nil => intro wd; simp
  | cons w ws ih =>
    intro wd
    rw [List.foldl_cons, ih]
    simp [WakerData.wake_by_ref]

theorem push_wake_fold_wd (ws : List LoopWaker) :
    ∀ (s : LoopInner) (wd : WakerData), s.waker_data = some wd →
    (ws.foldl LoopInner.push_wake s).waker_data =
      some (ws.foldl WakerData.wake_by_ref wd) ∧
    (ws.foldl LoopInner.push_wake s).polled = s.polled ∧
    (ws.foldl LoopInner.push_wake s).ternimated = s.ternimated := by
  induction ws with
  | nil => intro s wd h; exact ⟨h, rfl, rfl⟩
  | cons w ws ih =>
    intro s wd h
    rw [List.foldl_cons, List.foldl_cons]
    have hstep : (s.push_wake w).waker_data = some (wd.wake_by_ref w) := by
      simp [LoopInner.push_wake, h]
    exact ih (s.push_wake w) (wd.wake_by_ref w) hstep

/-- A running engine with empty pending list, used to witness C2. -/
def c2wS : LoopInner :=
  { waker_data := some ⟨[], false, []⟩, ternimated := false, polled := true,
    futures := ⟨[]⟩, watcher_stream_register_notifier_item_registered := [],
    items := [] }

/-- C2: every Wake Handle invocation between two checks appends exactly its own
tag to the shared pending list; the next check's drain takes ownership of the
entire pending list (dispatching exactly those tags, in order, each once) and
leaves the pending list empty, so tags arriving later are handled only by a
later check. -/
theorem claim_C2 (s : LoopInner) (wd : WakerData) (ws : List LoopWaker)
    (hp : s.polled = true) (hwd : s.waker_data = some wd) :
    (ws.foldl LoopInner.push_wake s).pending = wd.ready_tokens ++ ws ∧
    (ws.foldl LoopInner.push_wake s).poll_next_inner =
      ((ws.foldl LoopInner.push_wake s).clear_pending).dispatch_tags
        (wd.ready_tokens ++ ws) ∧
    (∀ r, (ws.foldl LoopInner.push_wake s).poll_next_inner = some r →
      r.2.pending = []) := by
  obtain ⟨hwdf, hpolled, -⟩ := push_wake_fold_wd ws s wd hwd
  refine ⟨?_, ?_, ?_⟩
  · rw [pending_some hwdf, wake_by_ref_fold_rt]
  · unfold LoopInner.poll_next_inner
    rw [if_neg (by simp [hpolled, hp]), hwdf]
    show (({ ws.foldl LoopInner.push_wake s with
        waker_data := some { ws.foldl WakerData.wake_by_ref wd with
          ready_tokens := [], root_notified := false } } : LoopInner).dispatch_tags
        (ws.foldl WakerData.wake_by_ref wd).ready_tokens) = _
    rw [wake_by_ref_fold_rt]
    unfold LoopInner.clear_pending
    rw [hwdf]
    rfl
  · intro r hr
    exact (poll_next_inner_after _ _ hr).2.2

theorem claim_C2_witness :
    (([⟨WakeFrom.newItem, none⟩] : List LoopWaker).foldl LoopInner.push_wake
      c2wS).pending = [] ++ [⟨WakeFrom.newItem, none⟩] :=
  (claim_C2 c2wS ⟨[], false, []⟩ [⟨WakeFrom.newItem, none⟩] rfl rfl).1

/-- C8: each check yields exactly one of three results — end-of-sequence when
the engine is terminated (regardless of the batch), not-ready when the batch
is empty, and otherwise the non-empty ordered batch as one result. -/
theorem claim_C8 (s : LoopInner) (evs : List Event) (s' : LoopInner)
    (h : s.poll_next_inner = some (evs, s')) :
    (s'.ternimated = true → s.poll_next = some (PollOut.readyNone, s')) ∧
    (s'.ternimated = false → evs = [] → s.poll_next = some (PollOut.pendingOut, s')) ∧
    (s'.ternimated = false → evs ≠ [] → s.poll_next = some (PollOut.readySome evs, s')) := by
  unfold LoopInner.poll_next
  rw [show s.poll_next_inner >>= (fun r =>
      if r.2.ternimated then pure (PollOut.readyNone, r.2)
      else if r.1.isEmpty then pure (PollOut.pendingOut, r.2)
      else pure (PollOut.readySome r.1, r.2)) =
    (if s'.ternimated then pure (PollOut.readyNone, s')
      else if evs.isEmpty then pure (PollOut.pendingOut, s')
      else pure (PollOut.readySome evs, s')) by rw [h]; rfl]
  refine ⟨?_, ?_, ?_⟩
  · intro h1
    rw [if_pos (by rw [h1])]
    rfl
  · intro h1 h2
    rw [if_neg (by rw [h1]; exact Bool.false_ne_true), if_pos (by rw [h2]; rfl)]
    rfl
  · intro h1 h2
    rw [if_neg (by rw [h1]; exact Bool.false_ne_true),
      if_neg (by simpa [List.isEmpty_iff] using h2)]
    rfl

theorem claim_C8_witness :
    (LoopInner.new [] []).poll_next = some (PollOut.pendingOut,
      { waker_data := some ⟨[], false, [⟨WakeFrom.newItem, none⟩]⟩,
        ternimated := false, polled := true, futures := ⟨[]⟩,
        watcher_stream_register_notifier_item_registered := [], items := [] }) :=
  (claim_C8 (LoopInner.new [] []) []
    { waker_data := some ⟨[], false, [⟨WakeFrom.newItem, none⟩]⟩,
      ternimated := false, polled := true, futures := ⟨[]⟩,
      watcher_stream_register_notifier_item_registered := [], items := [] }
    (by decide)).2.1 rfl rfl

/-- C9: in every reachable state the terminated flag is false — it starts
false and no operation sets it — so a check never reports end-of-sequence. -/
theorem claim_C9 (s : LoopInner) (h : Reachable s) :
    s.ternimated = false ∧
    ∀ out s', s.poll_next = some (out, s') → out ≠ PollOut.readyNone := by
  have hmain : s.ternimated = false := by
    induction h with
    | init watcher items => rfl
    | step hR hstep ih =>
      cases hstep with
      | poll out s2 hp2 => exact (poll_next_after _ _ _ hp2).1.trans ih
      | wake w hw => exact ih
      | deliver_property t c => exact ih
      | deliver_disconnect t d => exact ih
      | deliver_layout t c => exact ih
      | deliver_new_item rg => exact ih
  exact ⟨hmain, fun out s' hp => (poll_next_after _ _ _ hp).2.2.2 hmain⟩

theorem claim_C9_witness : (LoopInner.new [] []).ternimated = false :=
  (claim_C9 (LoopInner.new [] []) (Reachable.init [] [])).1

theorem FutureMap.set_set (fm : FutureMap) (i : Nat) (a b : Option Conv) :
    (fm.set i a).set i b = fm.set i b := by
  simp [FutureMap.set, List.set_set]

/-- C7: dispatching `Conversion(i)` on an occupied slot takes ownership of the
stored conversion, re-checks it with a freshly minted handle for the same slot
index, and either frees the slot and emits the event (if any) or stores the
same conversion back (one poll consumed) and produces nothing. -/
theorem claim_C7 (s : LoopInner) (wd : WakerData) (i : Nat) (c : Conv)
    (hwd : s.waker_data = some wd) (hslot : s.futures.get i = some (some c)) :
    (c.fuel = 0 →
      s.wake_from (WakeFrom.futureEvent i) =
        some ((c.result.map LoopEvent.events).getD [],
          { s with futures := s.futures.set i none,
                   waker_data := some (wd.mint ⟨WakeFrom.futureEvent i, some c.cid⟩) })) ∧
    (c.fuel ≠ 0 →
      s.wake_from (WakeFrom.futureEvent i) =
        some ([],
          { s with futures := s.futures.set i (some { c with fuel := c.fuel - 1 }),
                   waker_data := some (wd.mint ⟨WakeFrom.futureEvent i, some c.cid⟩) })) := by
  constructor <;> intro hf
  · simp only [LoopInner.wake_from]
    rw [hslot]
    simp only [Option.some_bind, Option.bind_eq_bind, bind, hwd, Conv.poll, hf, if_pos]
    cases hres : c.result with
    | none => simp [hres]
    | some ev => simp [hres, LoopEvent.process_by_loop]
  · simp only [LoopInner.wake_from]
    rw [hslot]
    simp only [Option.some_bind, Option.bind_eq_bind, bind, hwd, Conv.poll, hf, if_neg,
      FutureMap.set_set]
    simp [FutureMap.set_set]

/-- A running engine with one occupied conversion slot, used to witness C7. -/
def c7wS : LoopInner :=
  { waker_data := some ⟨[], false, []⟩, ternimated := false, polled := true,
    futures := ⟨[some ⟨3, 0, some ⟨[Event.payload 9]⟩⟩]⟩,
    watcher_stream_register_notifier_item_registered := [], items := [] }

theorem claim_C7_witness :
    c7wS.wake_from (WakeFrom.futureEvent 0) =
      some ([Event.payload 9],
        { c7wS with
          futures := c7wS.futures.set 0 none,
          waker_data := some (WakerData.mint ⟨[], false, []⟩
            ⟨WakeFrom.futureEvent 0, some 3⟩) }) :=
  (claim_C7 c7wS ⟨[], false, []⟩ 0 ⟨3, 0, some ⟨[Event.payload 9]⟩⟩ rfl rfl).1 rfl

theorem layout_fold_some (u : Unit) (l : List Conv) :
    ∀ (a : List LoopEvent × FutureMap × WakerData),
    (l.foldl (layoutStep (some u)) (some a)).isSome := by
  induction l with
  | nil => intro a; rfl
  | cons c l ih =>
    intro a
    rw [List.foldl_cons]
    exact ih (a.1 ++ ((a.2.1.try_put c a.2.2).1.toList), (a.2.1.try_put c a.2.2).2.1,
      (a.2.1.try_put c a.2.2).2.2)

/-- C10: `poll_layout_change` unwraps the menu capability for every drained
layout pulse (panicking when it is absent); when every item with a layout
stream also has a menu capability the panic branch is unreachable, and an item
with no layout stream yields the empty list, enqueuing nothing. -/
theorem claim_C10 (it : Item) (t : Token) (wd : WakerData) (fm : FutureMap) :
    (it.layout_updated_stream = none →
      it.poll_layout_change t wd fm =
        some ([], it, fm, wd.mint ⟨WakeFrom.itemUpdate t ItemWakeFrom.layoutUpdate, none⟩)) ∧
    ((it.layout_updated_stream.isSome → it.dbus_menu_proxy.isSome) →
      (it.poll_layout_change t wd fm).isSome) ∧
    (∀ c rest, it.layout_updated_stream = some (some c :: rest) →
      it.dbus_menu_proxy = none →
      it.poll_layout_change t wd fm = none) := by
  refine ⟨?_, ?_, ?_⟩
  · intro h
    simp only [Item.poll_layout_change, h]
  · intro h
    cases hst : it.layout_updated_stream with
    | none => simp only [Item.poll_layout_change, hst]; rfl
    | some st =>
      have hmenu : it.dbus_menu_proxy.isSome := h (by rw [hst]; rfl)
      obtain ⟨u, hu⟩ : ∃ u, it.dbus_menu_proxy = some u :=
        Option.isSome_iff_exists.mp hmenu
      simp only [Item.poll_layout_change, hst, hu]
      cases hfold : (loop_until_pending st).1.filterMap id |>.foldl (layoutStep (some u))
          (some ([], fm, wd.mint ⟨WakeFrom.itemUpdate t ItemWakeFrom.layoutUpdate, none⟩)) with
      | none =>
        exfalso
        have := layout_fold_some u ((loop_until_pending st).1.filterMap id)
          ([], fm, wd.mint ⟨WakeFrom.itemUpdate t ItemWakeFrom.layoutUpdate, none⟩)
        rw [hfold] at this
        cases this
      | some r => rfl
  · intro c rest hst hmenu
    simp only [Item.poll_layout_change, hst, hmenu]
    rw [show (loop_until_pending (some c :: rest)).1.filterMap id = c :: rest.filterMap id
      from rfl]
    rw [List.foldl_cons,
      show layoutStep none (some ([], fm,
        wd.mint ⟨WakeFrom.itemUpdate t ItemWakeFrom.layoutUpdate, none⟩)) c = none from rfl,
      layoutStep_fold_none]

theorem claim_C10_witness :
    ((⟨some (), (), [], [], some [some ⟨4, 1, none⟩]⟩ : Item).poll_layout_change "x"
      ⟨[], false, []⟩ ⟨[]⟩).isSome ∧
    (⟨none, (), [], [], some [some ⟨4, 1, none⟩]⟩ : Item).poll_layout_change "x"
      ⟨[], false, []⟩ ⟨[]⟩ = none :=
  ⟨(claim_C10 ⟨some (), (), [], [], some [some ⟨4, 1, none⟩]⟩ "x" ⟨[], false, []⟩ ⟨[]⟩).2.1
      (fun _ => rfl),
   (claim_C10 ⟨none, (), [], [], some [some ⟨4, 1, none⟩]⟩ "x" ⟨[], false, []⟩ ⟨[]⟩).2.2
      ⟨4, 1, none⟩ [] rfl rfl⟩

/-- C1 (amended): dispatching a stale Wake Tag panics instead of being a
silent no-op — a `Conversion(i)` tag whose slot is freed (or out of bounds)
hits `take().unwrap()` / the index panic, and an `ItemSource` tag whose token
is gone hits `get_mut(..).unwrap()`. -/
theorem claim_C1_amended (s : LoopInner) (i : Nat) (t : Token) (k : ItemWakeFrom) :
    (s.futures.get i = some none → s.wake_from (WakeFrom.futureEvent i) = none) ∧
    (s.futures.get i = none → s.wake_from (WakeFrom.futureEvent i) = none) ∧
    (s.get_item t = none → s.wake_from (WakeFrom.itemUpdate t k) = none) := by
  refine ⟨?_, ?_, ?_⟩ <;> intro h
  · simp only [LoopInner.wake_from]
    rw [h]
    rfl
  · simp only [LoopInner.wake_from]
    rw [h]
    rfl
  · simp only [LoopInner.wake_from]
    rw [h]
    rfl

theorem firstNoneIdx_none_spec (l : List (Option Conv)) (h : firstNoneIdx l = none) :
    ∀ x ∈ l, x.isSome := by
  induction l with
  | nil => intro x hx; cases hx
  | cons a l ih =>
    cases a with
    | none => cases h
    | some c =>
      intro x hx
      cases hx with
      | head => rfl
      | tail _ hx =>
        refine ih ?_ x hx
        simp only [firstNoneIdx] at h
        exact Option.map_eq_none'.mp h

theorem firstNoneIdx_some_spec (l : List (Option Conv)) :
    ∀ i, firstNoneIdx l = some i →
    l.get? i = some none ∧ ∀ j, j < i → ∃ c, l.get? j = some (some c) := by
  induction l with
  | nil => intro i h; cases h
  | cons a l ih =>
    intro i h
    cases a with
    | none =>
      cases h
      exact ⟨rfl, fun j hj => absurd hj (Nat.not_lt_zero j)⟩
    | some c =>
      simp only [firstNoneIdx, Option.map_eq_some'] at h
      obtain ⟨i', hi', rfl⟩ := h
      obtain ⟨h1, h2⟩ := ih i' hi'
      refine ⟨h1, fun j hj => ?_⟩
      cases j with
      | zero => exact ⟨c, rfl⟩
      | succ j' => exact h2 j' (Nat.lt_of_succ_lt_succ hj)

/-- C6: `try_put` allocates the first empty slot (appending a fresh one when
the table is full), mints a `Conversion(slot_index)` handle and checks the
conversion once: if it is immediately ready its result is returned
synchronously and the slot stays free, otherwise the suspended conversion is
stored in the allocated slot and nothing is returned. -/
theorem claim_C6 (fm : FutureMap) (fut : Conv) (wd : WakerData) :
    (∀ j, j < (fm.preserve_space).1 → ∃ c, fm.map.get? j = some (some c)) ∧
    ((fm.preserve_space).2.map.get? (fm.preserve_space).1 = some none) ∧
    ((fm.preserve_space).1 < fm.map.length ∧ (fm.preserve_space).2 = fm ∨
      (fm.preserve_space).1 = fm.map.length ∧ (fm.preserve_space).2.map = fm.map ++ [none]) ∧
    (fut.fuel = 0 →
      fm.try_put fut wd = (fut.result, (fm.preserve_space).2,
        wd.mint ⟨WakeFrom.futureEvent (fm.preserve_space).1, some fut.cid⟩)) ∧
    (fut.fuel ≠ 0 →
      fm.try_put fut wd = (none,
        ((fm.preserve_space).2).set (fm.preserve_space).1
          (some { fut with fuel := fut.fuel - 1 }),
        wd.mint ⟨WakeFrom.futureEvent (fm.preserve_space).1, some fut.cid⟩)) := by
  cases hfi : firstNoneIdx fm.map with
  | some i =>
    obtain ⟨h1, h2⟩ := firstNoneIdx_some_spec fm.map i hfi
    have hps : fm.preserve_space = (i, fm) := by
      simp [FutureMap.preserve_space, hfi]
    refine ⟨?_, ?_, ?_, ?_, ?_⟩
    · rw [hps]; exact h2
    · rw [hps]; exact h1
    · rw [hps]
      exact Or.inl ⟨(List.get?_eq_some.mp h1).1, rfl⟩
    · intro hf
      simp [FutureMap.try_put, hps, Conv.poll, hf]
    · intro hf
      simp [FutureMap.try_put, hps, Conv.poll, hf]
  | none =>
    have hall := firstNoneIdx_none_spec fm.map hfi
    have hps : fm.preserve_space = (fm.map.length, ⟨fm.map ++ [none]⟩) := by
      simp [FutureMap.preserve_space, hfi]
    refine ⟨?_, ?_, ?_, ?_, ?_⟩
    · rw [hps]
      intro j hj
      cases hg : fm.map.get? j with
      | none =>
        exfalso
        rw [List.get?_eq_none] at hg
        exact absurd hj (Nat.not_lt_of_le hg)
      | some x =>
        have hx : x.isSome := hall x (List.get?_mem hg)
        obtain ⟨c, rfl⟩ := Option.isSome_iff_exists.mp hx
        exact ⟨c, rfl⟩
    · rw [hps]
      exact List.get?_concat_length fm.map none
    · rw [hps]
      exact Or.inr ⟨rfl, rfl⟩
    · intro hf
      simp [FutureMap.try_put, hps, Conv.poll, hf]
    · intro hf
      simp [FutureMap.try_put, hps, Conv.poll, hf]

theorem claim_C6_witness :
    FutureMap.try_put ⟨[some ⟨5, 1, none⟩, none]⟩ ⟨7, 0, some ⟨[Event.payload 3]⟩⟩
      ⟨[], false, []⟩ =
    (some ⟨[Event.payload 3]⟩, ⟨[some ⟨5, 1, none⟩, none]⟩,
      ⟨[], false, [⟨WakeFrom.futureEvent 1, some 7⟩]⟩) :=
  (claim_C6 ⟨[some ⟨5, 1, none⟩, none]⟩ ⟨7, 0, some ⟨[Event.payload 3]⟩⟩
    ⟨[], false, []⟩).2.2.2.1 rfl

/-- One item whose buffered property notification converts immediately: its
conversion completes during the baseline sweep, so slot 0 is freed at once,
while the `Conversion(0)` waker minted for it is already distributed. -/
def c1cxItem : Item := ⟨none, (), [], [some ⟨1, 0, some ⟨[Event.payload 1]⟩⟩], none⟩

/-- The engine of the C1 trace before its first check. -/
def c1cxA : LoopInner := LoopInner.new [] [("t", c1cxItem)]

/-- The engine of the C1 trace after the first check: slot 0 is free and the
`Conversion(0)` waker is among the distributed handles. -/
def c1cxB : LoopInner :=
  { waker_data := some ⟨[], false,
      [⟨WakeFrom.itemUpdate "t" ItemWakeFrom.disconnect, none⟩,
       ⟨WakeFrom.itemUpdate "t" ItemWakeFrom.propertyChange, none⟩,
       ⟨WakeFrom.futureEvent 0, some 1⟩,
       ⟨WakeFrom.itemUpdate "t" ItemWakeFrom.layoutUpdate, none⟩,
       ⟨WakeFrom.newItem, none⟩]⟩,
    ternimated := false, polled := true, futures := ⟨[none]⟩,
    watcher_stream_register_notifier_item_registered := [],
    items := [("t", ⟨none, (), [], [], none⟩)] }

/-- The engine of the C1 trace after the environment invokes the already
distributed (now stale) `Conversion(0)` waker: the tag is pending while slot 0
is free. -/
def c1cxC : LoopInner := c1cxB.push_wake ⟨WakeFrom.futureEvent 0, some 1⟩

/-- C1 (counterexample): a reachable running state in which the pending list
holds a stale `Conversion(0)` tag for a freed slot, and whose next check —
which must dispatch that tag — panics (`take().unwrap()` on `None`) instead of
being a silent no-op: both the targeted dispatch of the tag and the whole
check abort. -/
theorem claim_C1_counterexample :
    Reachable c1cxC ∧ c1cxC.polled = true ∧
    c1cxC.pending = [⟨WakeFrom.futureEvent 0, some 1⟩] ∧
    c1cxC.futures.get 0 = some none ∧
    c1cxC.wake_from (WakeFrom.futureEvent 0) = none ∧
    c1cxC.poll_next = none := by
  refine ⟨?_, by decide, by decide, by decide, by decide, by decide⟩
  have h0 : Reachable c1cxA := Reachable.init [] [("t", c1cxItem)]
  have h1 : Reachable c1cxB :=
    Reachable.step h0 (EnvStep.poll (PollOut.readySome [Event.payload 1]) c1cxB (by decide))
  exact Reachable.step h1 (EnvStep.wake ⟨WakeFrom.futureEvent 0, some 1⟩ (by decide))

/-- One item with a buffered property notification whose conversion needs one
more poll: the baseline sweep stores it in slot 0. -/
def c3cxItem : Item := ⟨none, (), [], [some ⟨1, 1, some ⟨[Event.payload 1]⟩⟩], none⟩

/-- The engine of the C3 trace before its first check. -/
def c3cxA : LoopInner := LoopInner.new [] [("t", c3cxItem)]

/-- The engine of the C3 trace after the first check: conversion 1 is stored
in slot 0 and the `Conversion(0)` waker minted for it is distributed. -/
def c3cxB : LoopInner :=
  { waker_data := some ⟨[], false,
      [⟨WakeFrom.itemUpdate "t" ItemWakeFrom.disconnect, none⟩,
       ⟨WakeFrom.itemUpdate "t" ItemWakeFrom.propertyChange, none⟩,
       ⟨WakeFrom.futureEvent 0, some 1⟩,
       ⟨WakeFrom.itemUpdate "t" ItemWakeFrom.layoutUpdate, none⟩,
       ⟨WakeFrom.newItem, none⟩]⟩,
    ternimated := false, polled := true,
    futures := ⟨[some ⟨1, 0, some ⟨[Event.payload 1]⟩⟩]⟩,
    watcher_stream_register_notifier_item_registered := [],
    items := [("t", ⟨none, (), [], [], none⟩)] }

/-- The bus then buffers a second property notification (conversion 2). -/
def c3cxC : LoopInner := c3cxB.deliver_property "t" (some ⟨2, 1, some ⟨[Event.payload 2]⟩⟩)

/-- The `Conversion(0)` waker fires, then the property-change waker fires. -/
def c3cxD : LoopInner :=
  (c3cxC.push_wake ⟨WakeFrom.futureEvent 0, some 1⟩).push_wake
    ⟨WakeFrom.itemUpdate "t" ItemWakeFrom.propertyChange, none⟩

/-- The `Conversion(0)` waker fires a second time (the waker contract permits
any number of invocations): the pending list now ends with a tag that will be
stale by the time it is dispatched. -/
def c3cxE : LoopInner := c3cxD.push_wake ⟨WakeFrom.futureEvent 0, some 1⟩

/-- C3 (counterexample): a reachable state whose check violates the claimed
invariant.  Its pending list is `[Conversion(0), ItemSource(t, Property),
Conversion(0)]`, all legitimately minted.  Dispatching the first tag completes
conversion 1 and frees slot 0; dispatching the second drains the new property
notification and stores conversion 2 in the recycled slot 0 — while the third
tag, minted for conversion 1, is still undispatched (`slot_tags_consistent`
is false at drain position 2).  The check then dispatches that stale tag,
which resumes and resolves conversion 2: the batch contains conversion 2's
event, so a wake tag minted for the old conversion resolved the new one. -/
theorem claim_C3_counterexample :
    Reachable c3cxE ∧
    c3cxE.pending = [⟨WakeFrom.futureEvent 0, some 1⟩,
      ⟨WakeFrom.itemUpdate "t" ItemWakeFrom.propertyChange, none⟩,
      ⟨WakeFrom.futureEvent 0, some 1⟩] ∧
    ((c3cxE.clear_pending).dispatch_take c3cxE.pending 2).map
      (fun p => (p.1.futures.get 0, p.2)) =
      some (some (some ⟨2, 0, some ⟨[Event.payload 2]⟩⟩),
        [⟨WakeFrom.futureEvent 0, some 1⟩]) ∧
    ((c3cxE.clear_pending).dispatch_take c3cxE.pending 2).map
      (fun p => slot_tags_consistent p.2 p.1.futures) = some false ∧
    (c3cxE.poll_next).map Prod.fst =
      some (PollOut.readySome [Event.payload 1, Event.payload 2]) := by
  refine ⟨?_, by decide, by decide, by decide, by decide⟩
  have h0 : Reachable c3cxA := Reachable.init [] [("t", c3cxItem)]
  have h1 : Reachable c3cxB :=
    Reachable.step h0 (EnvStep.poll PollOut.pendingOut c3cxB (by decide))
  have h2 : Reachable c3cxC :=
    Reachable.step h1 (EnvStep.deliver_property "t" (some ⟨2, 1, some ⟨[Event.payload 2]⟩⟩))
  have h3 : Reachable ((c3cxC.push_wake ⟨WakeFrom.futureEvent 0, some 1⟩).push_wake
      ⟨WakeFrom.itemUpdate "t" ItemWakeFrom.propertyChange, none⟩) :=
    Reachable.step
      (Reachable.step h2 (EnvStep.wake ⟨WakeFrom.futureEvent 0, some 1⟩ (by decide)))
      (EnvStep.wake ⟨WakeFrom.itemUpdate "t" ItemWakeFrom.propertyChange, none⟩ (by decide))
  exact Reachable.step h3 (EnvStep.wake ⟨WakeFrom.futureEvent 0, some 1⟩ (by decide))

/-- C3 (amended): the slot table may be recycled while a `Conversion` tag
minted for the earlier occupant is still undispatched — `try_put` consults no
outstanding-tag bookkeeping (its returned result and slot table are
independent of the wake state), and a stale tag dispatched after recycling
resumes whatever now occupies the slot, as the C3 trace shows: the check's
batch ends with the new conversion's event, produced by the stale tag. -/
theorem claim_C3_amended (fm : FutureMap) (fut : Conv) (wd wd' : WakerData) :
    ((fm.try_put fut wd).1 = (fm.try_put fut wd').1 ∧
     (fm.try_put fut wd).2.1 = (fm.try_put fut wd').2.1) ∧
    (c3cxE.poll_next).map Prod.fst =
      some (PollOut.readySome [Event.payload 1, Event.payload 2]) := by
  constructor
  · unfold FutureMap.try_put
    cases fut.poll <;> simp
  · decide

theorem claim_C1_amended_witness :
    c1cxB.wake_from (WakeFrom.futureEvent 0) = none ∧
    c1cxB.wake_from (WakeFrom.itemUpdate "z" ItemWakeFrom.disconnect) = none :=
  ⟨(claim_C1_amended c1cxB 0 "z" ItemWakeFrom.disconnect).1 rfl,
   (claim_C1_amended c1cxB 0 "z" ItemWakeFrom.disconnect).2.2 (by decide)⟩

theorem processRemovals_get_item_ne (s : LoopInner) (t t' : Token) (ds : List Unit)
    (h : t' ≠ t) : (processRemovals s t ds).2.get_item t' = s.get_item t' := by
  simpa [processRemovals] using processRemovals_get_ne ds [] s t t' h

/-- C5: dispatching a drained `ItemSource(token, kind)` tag re-polls only that
one sub-source of that one item — every other item in the table is left
untouched (its streams are not drained, its entry is unchanged), the new-item
source is not drained, and for a property-change tag the dispatched item
itself keeps its other sub-sources, only its property buffer being drained. -/
theorem claim_C5 (s : LoopInner) (wd : WakerData) (t t' : Token) (it it' : Item)
    (kind : ItemWakeFrom)
    (hwd : s.waker_data = some wd) (hne : t' ≠ t)
    (hit : s.get_item t = some it) (hit' : s.get_item t' = some it') :
    ∀ evs s', s.wake_from (WakeFrom.itemUpdate t kind) = some (evs, s') →
      s'.get_item t' = some it' ∧
      s'.watcher_stream_register_notifier_item_registered =
        s.watcher_stream_register_notifier_item_registered ∧
      (kind = ItemWakeFrom.propertyChange →
        s'.get_item t = some { it with property_change_stream := [] }) := by
  intro evs s' h
  cases kind with
  | disconnect =>
    simp only [LoopInner.wake_from, Option.pure_def, Option.bind_eq_bind, bind,
      Option.bind_eq_some] at h
    obtain ⟨item, hitem, wd2, hwd2, h⟩ := h
    rw [hit] at hitem
    rw [hwd] at hwd2
    simp only [Option.some.injEq] at hitem hwd2
    subst hitem
    subst hwd2
    simp only [Option.some.injEq] at h
    have hs' : s' = (processRemovals
        (({ s with waker_data := some (it.poll_disconnect t wd).2.2 }).set_item t
          (it.poll_disconnect t wd).2.1) t (it.poll_disconnect t wd).1).2 := by
      rw [h]
    subst hs'
    refine ⟨?_, ?_, ?_⟩
    · rw [processRemovals_get_item_ne _ _ _ _ hne, get_item_set_item_ne _ _ _ _ hne]
      exact hit'
    · rw [processRemovals_state]
      rfl
    · intro hk
      cases hk
  | propertyChange =>
    simp only [LoopInner.wake_from, Option.pure_def, Option.bind_eq_bind, bind,
      Option.bind_eq_some] at h
    obtain ⟨item, hitem, wd2, hwd2, h⟩ := h
    rw [hit] at hitem
    rw [hwd] at hwd2
    simp only [Option.some.injEq] at hitem hwd2
    subst hitem
    subst hwd2
    simp only [Option.some.injEq, processLoopEvents_eq, Prod.mk.injEq] at h
    obtain ⟨-, hs'⟩ := h
    subst hs'
    refine ⟨?_, rfl, ?_⟩
    · rw [get_item_set_item_ne _ _ _ _ hne]
      exact hit'
    · intro hk
      exact get_item_set_item_self _ t _ it hit
  | layoutUpdate =>
    simp only [LoopInner.wake_from, Option.pure_def, Option.bind_eq_bind, bind,
      Option.bind_eq_some] at h
    obtain ⟨item, hitem, wd2, hwd2, l, hl, h⟩ := h
    rw [hit] at hitem
    rw [hwd] at hwd2
    simp only [Option.some.injEq] at hitem hwd2
    subst hitem
    subst hwd2
    simp only [Option.some.injEq, processLoopEvents_eq, Prod.mk.injEq] at h
    obtain ⟨-, hs'⟩ := h
    subst hs'
    refine ⟨?_, rfl, ?_⟩
    · rw [get_item_set_item_ne _ _ _ _ hne]
      exact hit'
    · intro hk
      cases hk

/-- A running engine with two items, of which only `"t"` has data, used to
witness C5. -/
def c5wS : LoopInner :=
  { waker_data := some ⟨[], false, []⟩, ternimated := false, polled := true,
    futures := ⟨[]⟩, watcher_stream_register_notifier_item_registered := [],
    items := [("t", ⟨none, (), [], [some ⟨1, 0, some ⟨[Event.payload 4]⟩⟩], none⟩),
      ("u", ⟨none, (), [], [], none⟩)] }

/-- The C5 witness engine after dispatching `ItemSource("t", PropertyChange)`. -/
def c5wS' : LoopInner :=
  { waker_data := some ⟨[], false,
      [⟨WakeFrom.itemUpdate "t" ItemWakeFrom.propertyChange, none⟩,
       ⟨WakeFrom.futureEvent 0, some 1⟩]⟩,
    ternimated := false, polled := true, futures := ⟨[none]⟩,
    watcher_stream_register_notifier_item_registered := [],
    items := [("t", ⟨none, (), [], [], none⟩), ("u", ⟨none, (), [], [], none⟩)] }

theorem claim_C5_witness : c5wS'.get_item "u" = some ⟨none, (), [], [], none⟩ :=
  ((claim_C5 c5wS ⟨[], false, []⟩ "t" "u"
      ⟨none, (), [], [some ⟨1, 0, some ⟨[Event.payload 4]⟩⟩], none⟩
      ⟨none, (), [], [], none⟩ ItemWakeFrom.propertyChange rfl (by decide) rfl rfl)
    [Event.payload 4] c5wS' (by decide)).1

/-- An immediately-ready conversion producing the given events. -/
def conv0 (evs : List Event) : Conv := ⟨0, 0, some ⟨evs⟩⟩

/-- A sub-source buffer holding one immediately-ready conversion per
notification. -/
def readyBuf (evss : List (List Event)) : List (Option Conv) :=
  evss.map fun evs => some (conv0 evs)

theorem readyBuf_filterMap (evss : List (List Event)) :
    (readyBuf evss).filterMap id = evss.map conv0 := by
  induction evss with
  | nil => rfl
  | cons e evss ih =>
    simp only [readyBuf, List.map_cons, List.filterMap_cons] at ih ⊢
    rw [ih]
    rfl

theorem propStep_fold_ready (evss : List (List Event)) :
    ∀ (acc : List LoopEvent) (fm : FutureMap) (wd : WakerData),
    ∃ fm' wd', (evss.map conv0).foldl propStep (acc, fm, wd) =
      (acc ++ evss.map LoopEvent.mk, fm', wd') := by
  induction evss with
  | nil => intro acc fm wd; exact ⟨fm, wd, by simp⟩
  | cons e evss ih =>
    intro acc fm wd
    obtain ⟨fm', wd', hih⟩ := ih (acc ++ [LoopEvent.mk e]) (fm.preserve_space).2
      (wd.mint ⟨WakeFrom.futureEvent (fm.preserve_space).1, some 0⟩)
    refine ⟨fm', wd', ?_⟩
    rw [List.map_cons, List.foldl_cons,
      show propStep (acc, fm, wd) (conv0 e) = (acc ++ [LoopEvent.mk e], (fm.preserve_space).2,
        wd.mint ⟨WakeFrom.futureEvent (fm.preserve_space).1, some 0⟩) by
        simp [propStep, FutureMap.try_put, conv0, Conv.poll],
      hih]
    simp

theorem layoutStep_fold_ready (evss : List (List Event)) :
    ∀ (acc : List LoopEvent) (fm : FutureMap) (wd : WakerData),
    ∃ fm' wd', (evss.map conv0).foldl (layoutStep (some ())) (some (acc, fm, wd)) =
      some (acc ++ evss.map LoopEvent.mk, fm', wd') := by
  induction evss with
  | nil => intro acc fm wd; exact ⟨fm, wd, by simp⟩
  | cons e evss ih =>
    intro acc fm wd
    obtain ⟨fm', wd', hih⟩ := ih (acc ++ [LoopEvent.mk e]) (fm.preserve_space).2
      (wd.mint ⟨WakeFrom.futureEvent (fm.preserve_space).1, some 0⟩)
    refine ⟨fm', wd', ?_⟩
    rw [List.map_cons, List.foldl_cons,
      show layoutStep (some ()) (some (acc, fm, wd)) (conv0 e) =
        some (acc ++ [LoopEvent.mk e], (fm.preserve_space).2,
          wd.mint ⟨WakeFrom.futureEvent (fm.preserve_space).1, some 0⟩) by
        simp [layoutStep, FutureMap.try_put, conv0, Conv.poll],
      hih]
    simp

theorem poll_property_change_ready (it : Item) (evss : List (List Event))
    (hst : it.property_change_stream = readyBuf evss) (t : Token) (wd : WakerData)
    (fm : FutureMap) :
    ∃ fm' wd', it.poll_property_change t wd fm =
      (evss.map LoopEvent.mk, { it with property_change_stream := [] }, fm', wd') := by
  obtain ⟨fm', wd', hf⟩ := propStep_fold_ready evss [] fm
    (wd.mint ⟨WakeFrom.itemUpdate t ItemWakeFrom.propertyChange, none⟩)
  refine ⟨fm', wd', ?_⟩
  simp only [Item.poll_property_change, hst, loop_until_pending, readyBuf_filterMap]
  rw [hf]
  simp

theorem poll_layout_change_ready (it : Item) (lays : List (List Event))
    (hst : it.layout_updated_stream = some (readyBuf lays))
    (hm : it.dbus_menu_proxy = some ()) (t : Token) (wd : WakerData) (fm : FutureMap) :
    ∃ fm' wd', it.poll_layout_change t wd fm =
      some (lays.map LoopEvent.mk, { it with layout_updated_stream := some [] }, fm', wd') := by
  obtain ⟨fm', wd', hf⟩ := layoutStep_fold_ready lays [] fm
    (wd.mint ⟨WakeFrom.itemUpdate t ItemWakeFrom.layoutUpdate, none⟩)
  refine ⟨fm', wd', ?_⟩
  simp only [Item.poll_layout_change, hst, hm, loop_until_pending, readyBuf_filterMap]
  rw [hf]
  simp

theorem map_events_mk (evss : List (List Event)) :
    (evss.map LoopEvent.mk).map LoopEvent.events = evss := by
  induction evss with
  | nil => rfl
  | cons e evss ih => simp only [List.map_cons, ih]

/-- First baseline-sweep item: menu capability, no disconnects, a buffered
backlog on both the property and the layout sub-sources. -/
def c4_itemA (evssA laysA : List (List Event)) : Item :=
  ⟨some (), (), [], readyBuf evssA, some (readyBuf laysA)⟩

/-- Second baseline-sweep item: a buffered disconnect notification plus a
buffered property backlog, no layout stream. -/
def c4_itemB (evssB : List (List Event)) : Item :=
  ⟨none, (), [some ()], readyBuf evssB, none⟩

/-- The item announced on the new-item source. -/
def c4_itemC : Item := ⟨none, (), [], [], none⟩

/-- The C4 engine before its first check. -/
def c4_state (evssA laysA evssB : List (List Event)) : LoopInner :=
  LoopInner.new [some ("c", c4_itemC)]
    [("a", c4_itemA evssA laysA), ("b", c4_itemB evssB)]

theorem firstPollStep_itemA (t : Token) (evss lays : List (List Event))
    (tuples : List (Token × List Unit × List LoopEvent × List LoopEvent))
    (its : List (Token × Item)) (fm : FutureMap) (wd : WakerData) :
    ∃ fm' wd', firstPollStep (some (tuples, its, fm, wd)) (t, c4_itemA evss lays) =
      some (tuples ++ [(t, [], evss.map LoopEvent.mk, lays.map LoopEvent.mk)],
        its ++ [(t, ⟨some (), (), [], [], some []⟩)], fm', wd') := by
  obtain ⟨fm1, wd1, hp⟩ := poll_property_change_ready
    ⟨some (), (), [], readyBuf evss, some (readyBuf lays)⟩ evss rfl t
    (wd.mint ⟨WakeFrom.itemUpdate t ItemWakeFrom.disconnect, none⟩) fm
  obtain ⟨fm2, wd2, hl⟩ := poll_layout_change_ready
    ⟨some (), (), [], [], some (readyBuf lays)⟩ lays rfl rfl t wd1 fm1
  refine ⟨fm2, wd2, ?_⟩
  simp only [firstPollStep, c4_itemA, Option.some_bind, Option.bind_eq_bind, bind,
    Item.poll_disconnect, loop_until_pending, List.filterMap_nil, hp, hl,
    Option.pure_def]

theorem firstPollStep_itemB (t : Token) (evss : List (List Event))
    (tuples : List (Token × List Unit × List LoopEvent × List LoopEvent))
    (its : List (Token × Item)) (fm : FutureMap) (wd : WakerData) :
    ∃ fm' wd', firstPollStep (some (tuples, its, fm, wd)) (t, c4_itemB evss) =
      some (tuples ++ [(t, [()], evss.map LoopEvent.mk, [])],
        its ++ [(t, ⟨none, (), [], [], none⟩)], fm', wd') := by
  obtain ⟨fm1, wd1, hp⟩ := poll_property_change_ready
    ⟨none, (), [], readyBuf evss, none⟩ evss rfl t
    (wd.mint ⟨WakeFrom.itemUpdate t ItemWakeFrom.disconnect, none⟩) fm
  refine ⟨fm1, wd1.mint ⟨WakeFrom.itemUpdate t ItemWakeFrom.layoutUpdate, none⟩, ?_⟩
  simp only [firstPollStep, c4_itemB, Option.some_bind, Option.bind_eq_bind, bind,
    Item.poll_disconnect, loop_until_pending, hp, Item.poll_layout_change,
    Option.pure_def]
  rfl

theorem map_set_not_found (l : List (Token × Item)) (t : Token) (it : Item)
    (hfind : l.find? (fun p => p.1 == t) = none) :
    l.map (fun p => if p.1 == t then (p.1, it) else p) = l := by
  induction l with
  | nil => rfl
  | cons p l ih =>
    have h1 : ¬((p.1 == t) = true) := by
      intro hp
      rw [List.find?_cons_of_pos (p := fun q => q.1 == t) (a := p) _ hp] at hfind
      cases hfind
    have h2 : l.find? (fun p => p.1 == t) = none := by
      rw [List.find?_cons_of_neg (p := fun q => q.1 == t) (a := p) _ h1] at hfind
      exact hfind
    rw [List.map_cons, if_neg h1, ih h2]

theorem sweep_item_c4C (s : LoopInner) (t : Token) (wd : WakerData)
    (hwd : s.waker_data = some wd) (hgi : s.get_item t = some c4_itemC)
    (hmap : s.items.map (fun p => if p.1 == t then (p.1, c4_itemC) else p) = s.items) :
    s.sweep_item t = some ([],
      { s with waker_data := some (((wd.mint
          ⟨WakeFrom.itemUpdate t ItemWakeFrom.disconnect, none⟩).mint
          ⟨WakeFrom.itemUpdate t ItemWakeFrom.propertyChange, none⟩).mint
          ⟨WakeFrom.itemUpdate t ItemWakeFrom.layoutUpdate, none⟩) }) := by
  simp only [c4_itemC] at hmap
  simp only [LoopInner.sweep_item, Option.some_bind, Option.bind_eq_bind, bind,
    Option.pure_def, hgi, hwd, c4_itemC, Item.poll_disconnect,
    Item.poll_property_change, Item.poll_layout_change, loop_until_pending,
    List.filterMap_nil, List.foldl_nil, processRemovals, processLoopEvents,
    LoopInner.set_item, hmap, Option.some.injEq, List.append_nil, List.nil_append]

theorem handle_new_item_c4C (s : LoopInner) (t : Token) (wd : WakerData)
    (hwd : s.waker_data = some wd)
    (hfind : s.items.find? (fun p => p.1 == t) = none) :
    ∃ wd', s.handle_new_item (t, c4_itemC) =
      some ([Event.itemAdded t],
        { s with waker_data := some wd', items := s.items ++ [(t, c4_itemC)] }) := by
  refine ⟨((wd.mint ⟨WakeFrom.itemUpdate t ItemWakeFrom.disconnect, none⟩).mint
    ⟨WakeFrom.itemUpdate t ItemWakeFrom.propertyChange, none⟩).mint
    ⟨WakeFrom.itemUpdate t ItemWakeFrom.layoutUpdate, none⟩, ?_⟩
  have hfc : List.find? (fun p => p.1 == t) [(t, c4_itemC)] = some (t, c4_itemC) :=
    List.find?_cons_of_pos (p := fun q => q.1 == t) (a := (t, c4_itemC)) [] (by simp)
  have hgi : ({ s with items := s.items ++ [(t, c4_itemC)] } : LoopInner).get_item t =
      some c4_itemC := by
    simp only [LoopInner.get_item, List.find?_append, hfind, Option.none_or, hfc,
      Option.map_some']
  have hmap : (s.items ++ [(t, c4_itemC)]).map
      (fun p => if p.1 == t then (p.1, c4_itemC) else p) = s.items ++ [(t, c4_itemC)] := by
    rw [List.map_append, map_set_not_found _ _ _ hfind]
    simp
  have hsweep := sweep_item_c4C { s with items := s.items ++ [(t, c4_itemC)] } t wd
    hwd hgi hmap
  simp only [LoopInner.handle_new_item, Option.some_bind, Option.bind_eq_bind, bind,
    Option.pure_def, hsweep, Option.some.injEq]

theorem poll_item_stream_c4 (s : LoopInner) (t : Token) (wd : WakerData)
    (hwd : s.waker_data = some wd)
    (hwatch : s.watcher_stream_register_notifier_item_registered = [some (t, c4_itemC)])
    (hfind : s.items.find? (fun p => p.1 == t) = none) :
    ∃ wd', s.poll_item_stream = some ([Event.itemAdded t],
      { s with
        waker_data := some wd',
        watcher_stream_register_notifier_item_registered := [],
        items := s.items ++ [(t, c4_itemC)] }) := by
  obtain ⟨wd', hh⟩ := handle_new_item_c4C
    { s with
      waker_data := some (wd.mint ⟨WakeFrom.newItem, none⟩),
      watcher_stream_register_notifier_item_registered := [] } t
    (wd.mint ⟨WakeFrom.newItem, none⟩) rfl hfind
  refine ⟨wd', ?_⟩
  simp only [LoopInner.poll_item_stream, Option.some_bind, Option.bind_eq_bind, bind,
    Option.pure_def, hwd, hwatch, loop_until_pending, List.filterMap_cons,
    List.filterMap_nil, id, List.foldl_cons, List.foldl_nil, newItemStep, hh,
    Option.some.injEq, List.nil_append]

/-- C4: on the very first check the baseline sweep drains every known item's
three sub-sources to exhaustion (all K buffered notifications of a sub-source
are collected and converted, not just one), attempts every queued conversion,
and then drains the new-item source, onboarding each announced item; the
resulting batch carries all of it in drain order. -/
theorem claim_C4 (evssA laysA evssB : List (List Event)) :
    ∃ fm wd, (c4_state evssA laysA evssB).poll_next =
      some (PollOut.readySome (evssA.flatten ++ (laysA.flatten ++
          (Event.itemRemoved "b" :: (evssB.flatten ++ [Event.itemAdded "c"])))),
        { waker_data := some wd,
          ternimated := false,
          polled := true,
          futures := fm,
          watcher_stream_register_notifier_item_registered := [],
          items := [("a", ⟨some (), (), [], [], some []⟩), ("c", c4_itemC)] }) := by
  obtain ⟨fm1, wd1, hA⟩ := firstPollStep_itemA "a" evssA laysA [] [] ⟨[]⟩ ⟨[], false, []⟩
  obtain ⟨fm2, wd2, hB⟩ := firstPollStep_itemB "b" evssB
    [("a", [], evssA.map LoopEvent.mk, laysA.map LoopEvent.mk)]
    [("a", ⟨some (), (), [], [], some []⟩)] fm1 wd1
  have hfold : ([("a", c4_itemA evssA laysA), ("b", c4_itemB evssB)]).foldl firstPollStep
      (some ([], [], ⟨[]⟩, ⟨[], false, []⟩)) =
      some ([("a", [], evssA.map LoopEvent.mk, laysA.map LoopEvent.mk),
          ("b", [()], evssB.map LoopEvent.mk, [])],
        [("a", ⟨some (), (), [], [], some []⟩), ("b", ⟨none, (), [], [], none⟩)],
        fm2, wd2) := by
    rw [List.foldl_cons, hA]
    simp only [List.nil_append]
    rw [List.foldl_cons, hB, List.foldl_nil]
    simp
  have hfilter : ([("a", (⟨some (), (), [], [], some []⟩ : Item)),
      ("b", (⟨none, (), [], [], none⟩ : Item))].filter fun p => p.1 != "b") =
      [("a", ⟨some (), (), [], [], some []⟩)] := by
    rw [List.filter_cons_of_pos (by decide), List.filter_cons_of_neg (by decide),
      List.filter_nil]
  have hpt : ([("a", ([] : List Unit), evssA.map LoopEvent.mk, laysA.map LoopEvent.mk),
      ("b", [()], evssB.map LoopEvent.mk, ([] : List LoopEvent))]).foldl processTuple
      ([], { waker_data := some wd2,
             ternimated := false,
             polled := true,
             futures := fm2,
             watcher_stream_register_notifier_item_registered := [some ("c", c4_itemC)],
             items := [("a", ⟨some (), (), [], [], some []⟩),
               ("b", ⟨none, (), [], [], none⟩)] }) =
      (evssA.flatten ++ (laysA.flatten ++ (Event.itemRemoved "b" :: evssB.flatten)),
        { waker_data := some wd2,
          ternimated := false,
          polled := true,
          futures := fm2,
          watcher_stream_register_notifier_item_registered := [some ("c", c4_itemC)],
          items := [("a", ⟨some (), (), [], [], some []⟩)] }) := by
    simp only [List.foldl_cons, List.foldl_nil, processTuple, processRemovals,
      processLoopEvents_eq, map_events_mk, LoopInner.handle_remove_item, hfilter,
      List.nil_append, List.append_nil]
    simp
  have hfindc : ([("a", (⟨some (), (), [], [], some []⟩ : Item))].find?
      fun p => p.1 == "c") = none := by
    rw [List.find?_cons_of_neg _ (by decide), List.find?_nil]
  obtain ⟨wd3, hpis⟩ := poll_item_stream_c4
    { waker_data := some wd2,
      ternimated := false,
      polled := true,
      futures := fm2,
      watcher_stream_register_notifier_item_registered := [some ("c", c4_itemC)],
      items := [("a", ⟨some (), (), [], [], some []⟩)] } "c" wd2 rfl rfl hfindc
  refine ⟨fm2, wd3, ?_⟩
  simp only [LoopInner.poll_next, LoopInner.poll_next_inner, c4_state, LoopInner.new,
    Bool.not_false, if_pos, LoopInner.first_poll, Option.some_bind, Option.bind_eq_bind,
    bind, Option.pure_def, hfold, hpt, hpis, Option.some.injEq]
  rw [if_neg (by simp [List.isEmpty_iff])]
  simp
